import Mathlib

/-!
Shallow embedding of the `smit` VLAN CRUD service (Go) and verification of its
specification claims.

The embedding covers:
* the data model (`server/api/models/vlan.go`: `VLANModel`, `VLANInput`),
* input validation (`VLANInput.Validate`, `isValidCIDR`, `isValidIP`), including
  faithful models of the Go 1.21 standard-library routines they delegate to
  (`net.ParseCIDR`, `net.ParseIP`, i.e. `netip.ParseAddr` with `parseIPv4Fields`
  and `parseIPv6`, and `net.dtoi`),
* the JSON-file storage engine (`server/api/storage/storage.go`): the dataset is
  the decoded contents of the backing file, so the engine's operations become
  functions from a dataset (`List VLANModel`) to a result; mutating operations
  also yield the dataset that `saveData` persists,
* the per-record HTTP path handling (`server/api/handlers`:
  `extractIDFromPath`, with models of `strings.Split`, `strings.TrimPrefix`
  and `strconv.Atoi`),
* an interleaving model of two concurrent `Create` calls against the shared
  file, with the `sync.RWMutex` discipline exactly as placed in the code: a
  read lock held for the duration of `loadData` and a write lock held for the
  duration of `saveData`, and nothing held in between.

Go `int` is modelled as `Int` (no claim involves 64-bit overflow) and
`time.Time` as an abstract `Int` tick. Strings are processed as `List Char`;
all inputs relevant to the claims are ASCII, where Go's byte-wise scanning and
`Char`-wise scanning coincide.
-/

namespace Smit

/-- `models.VLANModel` — the persisted entity (vlan.go lines 11-20). -/
structure VLANModel where
  id : Int
  name : String
  vlanID : Int
  subnet : String
  gateway : String
  status : String
  createdAt : Int
  updatedAt : Int
  deriving Repr, DecidableEq

/-- `models.VLANInput` — the create/update payload (vlan.go lines 23-29). -/
structure VLANInput where
  name : String
  vlanID : Int
  subnet : String
  gateway : String
  status : String
  deriving Repr, DecidableEq

/-- The sentinel storage errors `ErrVLANNotFound` / `ErrVLANExists`
(storage.go lines 14-17). -/
inductive StorageError where
  | vlanNotFound
  | vlanExists
  deriving Repr, DecidableEq

/-- A dataset: the decoded contents of the JSON backing file
(`models.VLANData.VLANs`). -/
abbrev Dataset := List VLANModel

/-- `JSONStorage.GetAll` (storage.go lines 91-98): returns the loaded dataset. -/
def getAll (d : Dataset) : Dataset := d

/-- `JSONStorage.GetByID` (storage.go lines 101-114): linear scan for the first
record whose `ID` matches, `ErrVLANNotFound` otherwise. -/
def getByID (d : Dataset) (id : Int) : Except StorageError VLANModel :=
  match d.find? (fun vlan => vlan.id == id) with
  | some vlan => .ok vlan
  | none => .error .vlanNotFound

/-- The `maxID` loop of `JSONStorage.Create` (storage.go lines 133-138):
`maxID := 0; for _, vlan := range data.VLANs { if vlan.ID > maxID { maxID = vlan.ID } }`. -/
def maxIDfold (d : Dataset) : Int :=
  d.foldl (fun maxID vlan => if vlan.id > maxID then vlan.id else maxID) 0

/-- `JSONStorage.Create` (storage.go lines 117-161): reject a `VlanID`
collision, otherwise assign `maxID+1` (or `1` on an empty dataset), stamp both
timestamps with `now`, append, and persist. Returns the persisted dataset
together with the new record. -/
def create (d : Dataset) (input : VLANInput) (now : Int) :
    Except StorageError (Dataset × VLANModel) :=
  if d.any (fun vlan => vlan.vlanID == input.vlanID) then
    .error .vlanExists
  else
    let newID : Int := if d.length > 0 then maxIDfold d + 1 else 1
    let newVLAN : VLANModel :=
      { id := newID
        name := input.name
        vlanID := input.vlanID
        subnet := input.subnet
        gateway := input.gateway
        status := input.status
        createdAt := now
        updatedAt := now }
    .ok (d ++ [newVLAN], newVLAN)

/-- The loop body of `JSONStorage.Update` (storage.go lines 172-197), walking
the dataset for the first record whose `ID` matches while keeping the whole
dataset `d` in scope for the `VlanID` conflict scan (which ranges over all of
`data.VLANs`). Returns the transformed suffix together with the updated
record. -/
def updateLoop (d : Dataset) (id : Int) (input : VLANInput) (now : Int) :
    Dataset → Except StorageError (Dataset × VLANModel)
  | [] => .error .vlanNotFound
  | vlan :: rest =>
    if vlan.id == id then
      if vlan.vlanID != input.vlanID &&
          d.any (fun v => v.id != id && v.vlanID == input.vlanID) then
        .error .vlanExists
      else
        let updated : VLANModel :=
          { vlan with
            name := input.name
            vlanID := input.vlanID
            subnet := input.subnet
            gateway := input.gateway
            status := input.status
            updatedAt := now }
        .ok (updated :: rest, updated)
    else
      match updateLoop d id input now rest with
      | .error e => .error e
      | .ok (rest', r) => .ok (vlan :: rest', r)

/-- `JSONStorage.Update` (storage.go lines 165-200). On success the returned
dataset is what `saveData` persists and the record is `&data.VLANs[i]`. -/
def update (d : Dataset) (id : Int) (input : VLANInput) (now : Int) :
    Except StorageError (Dataset × VLANModel) :=
  updateLoop d id input now d

/-- Outcome of `JSONStorage.Delete`. `panicked` models the Go run-time panic
`makeslice: cap out of range`: the allocation
`make([]models.VLANModel, 0, len(data.VLANs)-1)` at storage.go line 211 is
evaluated before the loop and the `found` check, and its capacity
`len(data.VLANs)-1` is negative exactly when the dataset is empty, so the
call aborts there without returning any error value. -/
inductive DeleteOutcome where
  | ok (newVLANs : Dataset)
  | error (e : StorageError)
  | panicked

/-- `JSONStorage.Delete` (storage.go lines 203-226): the slice allocation
`make([]models.VLANModel, 0, len(data.VLANs)-1)` runs first and panics when
its capacity is negative (empty dataset); otherwise the loop keeps every
record whose `ID` differs, and `ErrVLANNotFound` is returned when nothing
matched. -/
def delete (d : Dataset) (id : Int) : DeleteOutcome :=
  if (d.length : Int) - 1 < 0 then .panicked
  else
    let newVLANs := d.filter (fun vlan => vlan.id != id)
    if d.any (fun vlan => vlan.id == id) then .ok newVLANs else .error .vlanNotFound

/-- The backing file after a `Create` call: `saveData` runs only on the success
path (storage.go line 157), so on error the persisted state is untouched. -/
def createFile (d : Dataset) (input : VLANInput) (now : Int) : Dataset :=
  match create d input now with
  | .ok (d', _) => d'
  | .error _ => d

/-- The backing file after an `Update` call: `saveData` runs only on the
success path (storage.go line 191). -/
def updateFile (d : Dataset) (id : Int) (input : VLANInput) (now : Int) : Dataset :=
  match update d id input now with
  | .ok (d', _) => d'
  | .error _ => d

/-- The backing file after a `Delete` call: `saveData` runs only on the success
path (storage.go line 225); on the error path, and when the call aborts in the
slice-allocation panic, the persisted state is untouched. -/
def deleteFile (d : Dataset) (id : Int) : Dataset :=
  match delete d id with
  | .ok d' => d'
  | .error _ => d
  | .panicked => d

/-! ### Go standard-library parsing routines (Go 1.21, per the repository's
`golang:1.21` build image)

`isValidCIDR` delegates to `net.ParseCIDR` and `isValidIP` to `net.ParseIP`;
in Go 1.21 both delegate the address parsing to `netip.ParseAddr`. The models
below translate those routines over `List Char`. The parsed byte values are
dropped (they influence neither acceptance nor `BitLen`, which is all the
callers use); every control-flow check of the source is kept. -/

/-- `'0' <= c && c <= '9'`, the digit test used throughout the Go parsers. -/
def isDigitChar (c : Char) : Bool := '0' ≤ c && c ≤ '9'

/-- Digit value of a character, `int(c - '0')`. -/
def digitVal (c : Char) : Nat := c.toNat - '0'.toNat

/-- `net.dtoi` (net/parse.go): parse a decimal prefix, returning
(value, characters consumed, ok), giving up once the value reaches
`big = 0xFFFFFF`. `n` and `i` are the accumulator and index of the Go loop. -/
def dtoi : List Char → Nat → Nat → Nat × Nat × Bool
  | c :: rest, n, i =>
    if isDigitChar c then
      let n' := n * 10 + digitVal c
      if n' ≥ 0xFFFFFF then (0xFFFFFF, i, false)
      else dtoi rest n' (i + 1)
    else if i == 0 then (0, 0, false) else (n, i, true)
  | [], n, i => if i == 0 then (0, 0, false) else (n, i, true)

/-- `bytealg.IndexByteString s sep`-based splitting: the part before the first
occurrence of `sep` and the part after it, or `none` when `sep` is absent. -/
def splitFirst (sep : Char) : List Char → Option (List Char × List Char)
  | [] => none
  | c :: rest =>
    if c = sep then some ([], rest)
    else
      match splitFirst sep rest with
      | none => none
      | some (before, after) => some (c :: before, after)

/-- `netip.parseIPv4Fields` (netip.go): scan dotted-decimal fields. `val` and
`digLen` accumulate the current field (its value and digit count), `pos` counts
the completed fields; accepts exactly four fields of value at most 255 with no
leading zeros. The field-store writes are dropped; every check is kept, in
source order. -/
def parseIPv4Fields : List Char → Nat → Nat → Nat → Bool
  | [], _, _, pos =>
    -- end of the loop: `if pos < 3 { return ...error... }`
    !(pos < 3)
  | c :: rest, val, digLen, pos =>
    if isDigitChar c then
      -- leading-zero rejection: `if digLen == 1 && val == 0`
      if digLen == 1 && val == 0 then false
      else
        let val' := val * 10 + digitVal c
        if val' > 255 then false
        else parseIPv4Fields rest val' (digLen + 1) pos
    else if c = '.' then
      -- `if i == 0 || i == len(s)-1 || s[i-1] == '.'`: an empty field, which
      -- in this scan is `digLen == 0` (start or consecutive dot) or a dot as
      -- the final character (`rest = []`)
      if digLen == 0 then false
      else if rest = [] then false
      else if pos == 3 then false
      else parseIPv4Fields rest 0 0 (pos + 1)
    else false

/-- `netip.parseIPv4`: the whole string must form the four fields. -/
def parseIPv4 (s : List Char) : Bool := parseIPv4Fields s 0 0 0

/-- The hex-group scan at the top of the `parseIPv6` loop: consume hex digits
into `acc` with `off` counting them; fails on a fifth digit (`off > 3`) or a
value above `0xFFFF`; returns the accumulated value, the count and the rest of
the string. -/
def scanHexGroup : List Char → Nat → Nat → Option (Nat × Nat × List Char)
  | [], acc, off => some (acc, off, [])
  | c :: rest, acc, off =>
    let hd : Option Nat :=
      if isDigitChar c then some (digitVal c)
      else if 'a' ≤ c && c ≤ 'f' then some (c.toNat - 'a'.toNat + 10)
      else if 'A' ≤ c && c ≤ 'F' then some (c.toNat - 'A'.toNat + 10)
      else none
    match hd with
    | none => some (acc, off, c :: rest)
    | some v =>
      let acc' := acc * 16 + v
      if off > 3 then none
      else if acc' > 0xFFFF then none
      else scanHexGroup rest acc' (off + 1)

/-- The main loop of `netip.parseIPv6` (`for i < 16`), after the zone and any
leading `::` have been stripped. `i` counts address bytes filled, `ell` is the
position of the `::` when one was seen. Returns the final `i`, ellipsis state
and unconsumed rest on loop exit or break, `none` on a parse error. The `fuel`
argument only drives the structural recursion: every iteration with `i < 16`
raises `i` by at least 2, so the initial call with fuel 8 and `i = 0` never
exhausts it before the `i < 16` loop condition fails. -/
def v6loop : Nat → List Char → Nat → Option Nat → Option (Nat × Option Nat × List Char)
  | 0, s, i, ell => some (i, ell, s)
  | fuel + 1, s, i, ell =>
    if 16 ≤ i then some (i, ell, s)
    else
      match scanHexGroup s 0 0 with
      | none => none
      | some (_, off, rest) =>
        if off == 0 then none
        else if rest.head? = some '.' then
          -- embedded IPv4: must sit in the final two 16-bit fields
          if ell.isNone && i ≠ 12 then none
          else if i + 4 > 16 then none
          else if parseIPv4Fields s 0 0 0 then some (i + 4, ell, [])
          else none
        else
          let i' := i + 2
          match rest with
          | [] => some (i', ell, [])
          | ':' :: rest' =>
            if rest' = [] then none
            else
              match rest' with
              | ':' :: rest'' =>
                if ell.isSome then none
                else if rest'' = [] then some (i', some i', [])
                else v6loop fuel rest'' i' (some i')
              | _ => v6loop fuel rest' i' ell
          | _ => none

/-- `netip.parseIPv6`: strip the `%zone` (which must be non-empty when
present), handle a leading `::`, run the loop, and apply the final length and
ellipsis checks. Returns the zone on success. -/
def parseIPv6 (input : List Char) : Option (List Char) :=
  let stripped : Option (List Char × List Char) :=
    match splitFirst '%' input with
    | none => some (input, [])
    | some (s, zone) => if zone = [] then none else some (s, zone)
  match stripped with
  | none => none
  | some (s, zone) =>
    match s with
    | ':' :: ':' :: rest =>
      if rest = [] then some zone
      else
        match v6loop 8 rest 0 (some 0) with
        | none => none
        | some (i, ell, srem) =>
          if srem ≠ [] then none
          else if i < 16 then (if ell.isNone then none else some zone)
          else if ell.isSome then none
          else some zone
    | _ =>
      match v6loop 8 s 0 none with
      | none => none
      | some (i, ell, srem) =>
        if srem ≠ [] then none
        else if i < 16 then (if ell.isNone then none else some zone)
        else if ell.isSome then none
        else some zone

/-- Result of `netip.ParseAddr`: whether the address is IPv4 and its zone. -/
structure ParsedAddr where
  is4 : Bool
  zone : List Char
  deriving Repr, DecidableEq

/-- The scan loop of `netip.ParseAddr`: the first `'.'`, `':'` or `'%'` in
the string, if any. -/
def firstSpecial : List Char → Option Char
  | [] => none
  | c :: rest =>
    if c = '.' ∨ c = ':' ∨ c = '%' then some c else firstSpecial rest

/-- `netip.ParseAddr`: dispatch on the first `'.'`, `':'` or `'%'` in the
string (`'.'` → `parseIPv4`, `':'` → `parseIPv6`, `'%'` → missing-address
error); a string with none of the three fails. -/
def parseAddr (s : List Char) : Option ParsedAddr :=
  match firstSpecial s with
  | some '.' => if parseIPv4 s then some ⟨true, []⟩ else none
  | some ':' => (parseIPv6 s).map (fun zone => ⟨false, zone⟩)
  | _ => none

/-- `Addr.BitLen`: 32 for IPv4, 128 for IPv6. -/
def bitLen (a : ParsedAddr) : Nat := if a.is4 then 32 else 128

/-- `net.ParseCIDR` (Go 1.21 ip.go): split at the first `'/'`, parse the
address via `netip.ParseAddr` (rejecting zones), then require the mask to be a
fully consumed `dtoi` number at most `BitLen`. -/
def parseCIDR (s : List Char) : Bool :=
  match splitFirst '/' s with
  | none => false
  | some (addr, mask) =>
    match parseAddr addr with
    | none => false
    | some a =>
      if a.zone ≠ [] then false
      else
        match dtoi mask 0 0 with
        | (n, i, ok) => ok && i == mask.length && n ≤ bitLen a

/-- `net.ParseIP` (Go 1.21): `netip.ParseAddr` succeeding with an empty zone. -/
def parseIP (s : List Char) : Bool :=
  match parseAddr s with
  | some a => a.zone = []
  | none => false

/-! ### Validation (`server/api/models/vlan.go`) -/

/-- The five validation failures of `VLANInput.Validate`, one per rule, in the
spec's naming (each stands for the fixed Go error message). -/
inductive ValidationError where
  | invalidName
  | invalidVlanTag
  | invalidSubnet
  | invalidGateway
  | invalidStatus
  deriving Repr, DecidableEq

/-- `isValidCIDR` (vlan.go lines 85-88): `net.ParseCIDR` succeeds. -/
def isValidCIDR (cidr : String) : Bool := parseCIDR cidr.data

/-- Maximal run of decimal digits at the front of the string, and the rest:
how the anchored regex `^(\d{1,3}\.){3}\d{1,3}$` consumes one group (digits
and `.` are disjoint, so the match length of every `\d{1,3}\.` group is forced
and matching is deterministic). -/
def takeDigitRun (s : List Char) : Nat × List Char :=
  ((s.takeWhile isDigitChar).length, s.dropWhile isDigitChar)

/-- One `\d{1,3}\.` group of the gateway regex: one to three digits followed by
a literal dot; returns the rest of the string on a match. -/
def digitGroupDot (s : List Char) : Option (List Char) :=
  let (r, rest) := takeDigitRun s
  if 1 ≤ r ∧ r ≤ 3 then
    match rest with
    | '.' :: rest' => some rest'
    | _ => none
  else none

/-- The language of the anchored Go regex `^(\d{1,3}\.){3}\d{1,3}$` used by
`isValidIP` (vlan.go line 92): three digit groups each followed by a dot, then
a final digit group, then end of string. -/
def ipRegexMatch (s : List Char) : Bool :=
  match digitGroupDot s with
  | none => false
  | some s1 =>
    match digitGroupDot s1 with
    | none => false
    | some s2 =>
      match digitGroupDot s2 with
      | none => false
      | some s3 =>
        let (r, rest) := takeDigitRun s3
        decide (1 ≤ r ∧ r ≤ 3 ∧ rest = [])

/-- `isValidIP` (vlan.go lines 91-99): the regex shape check, then
`net.ParseIP` must succeed. -/
def isValidIP (ip : String) : Bool :=
  ipRegexMatch ip.data && parseIP ip.data

/-- `VLANInput.Validate` (vlan.go lines 50-82): the five rules in source
order, short-circuiting on the first failure. Go's `len(v.Name)` is the UTF-8
byte length. The status rule is the `validStatuses` map lookup. -/
def validate (v : VLANInput) : Except ValidationError Unit :=
  if v.name = "" ∨ v.name.utf8ByteSize > 255 then .error .invalidName
  else if v.vlanID < 1 ∨ v.vlanID > 4094 then .error .invalidVlanTag
  else if ¬ isValidCIDR v.subnet then .error .invalidSubnet
  else if ¬ isValidIP v.gateway then .error .invalidGateway
  else if ¬ (v.status = "active" ∨ v.status = "inactive" ∨ v.status = "maintenance") then
    .error .invalidStatus
  else .ok ()

/-! ### HTTP path handling (`server/api/handlers/handlers.go`) -/

/-- `strings.Split(s, sep)` for a one-character separator: split around every
occurrence, keeping empty fields. -/
def splitOnChar (sep : Char) : List Char → List (List Char)
  | [] => [[]]
  | c :: rest =>
    if c = sep then [] :: splitOnChar sep rest
    else
      match splitOnChar sep rest with
      | [] => [[c]]
      | g :: gs => (c :: g) :: gs

/-- `strings.TrimPrefix(path, "/")`: drop one leading slash when present. -/
def trimLeadingSlash : List Char → List Char
  | '/' :: rest => rest
  | s => s

/-- `strconv.Atoi` on a 64-bit platform: an optional sign followed by at least
one decimal digit, failing on any other character and on values outside the
`int64` range (`ErrRange` also surfaces as a non-nil error to the caller). -/
def atoi (s : List Char) : Option Int :=
  let signSplit : Bool × List Char :=
    match s with
    | '-' :: rest => (true, rest)
    | '+' :: rest => (false, rest)
    | _ => (false, s)
  match signSplit with
  | (neg, digits) =>
    if digits = [] then none
    else if ¬ digits.all isDigitChar then none
    else
      let n : Nat := digits.foldl (fun acc c => acc * 10 + digitVal c) 0
      if neg then
        if n > 2 ^ 63 then none else some (-(n : Int))
      else
        if n > 2 ^ 63 - 1 then none else some (n : Int)

/-- `extractIDFromPath` (handlers.go lines 152-168): split the trimmed path on
`/`, require at least four segments, parse segment 3 with `Atoi`, and reject
IDs outside `[1, 4094]`. -/
def extractIDFromPath (path : String) : Option Int :=
  let parts := splitOnChar '/' (trimLeadingSlash path.data)
  if parts.length < 4 then none
  else
    match parts[3]? with
    | none => none
    | some seg =>
      match atoi seg with
      | none => none
      | some id => if id < 1 ∨ id > 4094 then none else some id

/-- Outcome of a per-record handler, as far as the claims need it:
`badRequest` is the early HTTP 400 taken before storage is consulted,
`notFound` the HTTP 404 for `ErrVLANNotFound`. -/
inductive HandlerOutcome where
  | ok (vlan : VLANModel)
  | badRequest
  | notFound
  deriving Repr, DecidableEq

/-- `Handler.GetVLAN` (handlers.go lines 220-243) over a loaded dataset: a
path-extraction failure returns before `storage.GetByID` is called. -/
def getVLANHandler (d : Dataset) (path : String) : HandlerOutcome :=
  match extractIDFromPath path with
  | none => .badRequest
  | some id =>
    match getByID d id with
    | .ok vlan => .ok vlan
    | .error _ => .notFound

/-! ### Spec-side predicates

These follow the words of the specification claims (not the source); they are
the yardsticks the code models are compared against. -/

/-- Numeric value of a digit string (most significant digit first). -/
def digitsVal (g : List Char) : Nat :=
  g.foldl (fun acc c => acc * 10 + digitVal c) 0

/-- Spec-side: a canonical decimal octet — nonempty, all digits, no leading
zero (other than `"0"` itself), value at most 255. Exactly the strings
`Nat.repr k` for `k ≤ 255`. -/
def specOctet (g : List Char) : Prop :=
  g ≠ [] ∧ (∀ c ∈ g, isDigitChar c = true) ∧
    (2 ≤ g.length → g.head? ≠ some '0') ∧ digitsVal g ≤ 255

/-- Spec-side: an IPv4 dotted-decimal address — exactly four dot-separated
canonical octets. -/
def specIPv4Text (s : List Char) : Prop :=
  (splitOnChar '.' s).length = 4 ∧ ∀ g ∈ splitOnChar '.' s, specOctet g

instance (g : List Char) : Decidable (specOctet g) := by
  unfold specOctet
  infer_instance

instance (s : List Char) : Decidable (specIPv4Text s) := by
  unfold specIPv4Text
  infer_instance

/-- Claim C7's subnet predicate, following its words: an IPv4 dotted-decimal
address, followed by `/` and a numeric prefix length in `[0, 32]`. -/
def subnetClaimC7 (s : String) : Prop :=
  match splitFirst '/' s.data with
  | none => False
  | some (addr, mask) =>
    specIPv4Text addr ∧ mask ≠ [] ∧ (∀ c ∈ mask, isDigitChar c = true) ∧
      digitsVal mask ≤ 32

/-- Claim C8's gateway predicate, following its words: exactly four
dot-separated all-numeric groups, each parsing as an integer in `[0, 255]`
(leading zeros allowed by the claim's wording). -/
def gatewayClaimC8 (s : String) : Prop :=
  (splitOnChar '.' s.data).length = 4 ∧
    ∀ g ∈ splitOnChar '.' s.data, g ≠ [] ∧ (∀ c ∈ g, isDigitChar c = true) ∧
      digitsVal g ≤ 255

/-- The amended gateway predicate: as claim C8, but each group must also be
free of leading zeros (the canonical decimal of an integer in `[0, 255]`). -/
def gatewayAmended (s : String) : Prop := specIPv4Text s.data

/-! ### Interleaving model of two concurrent `Create` calls

`loadData` (storage.go lines 50-71) holds `s.mu.RLock()` only while it opens,
reads and decodes the file; `saveData` (lines 74-88) holds `s.mu.Lock()` only
while it encodes and writes the file. Between the two, `Create` runs its
collision check and ID computation holding no lock. Each numbered program
counter below is one atomic step of that structure; the `sync.RWMutex` is
modelled by a reader count and a writer flag (readers may share the lock,
a writer excludes readers and writers). -/

/-- Per-goroutine state of one `Create` call: program counter, the dataset
snapshot decoded by `loadData`, the dataset handed to `saveData`, and the
call's return value once known. -/
structure TState where
  pc : Nat
  data : Dataset
  toWrite : Dataset
  result : Option (Except StorageError VLANModel)
  deriving Repr

/-- A goroutine that has not started. -/
def initT : TState := { pc := 0, data := [], toWrite := [], result := none }

/-- One atomic step of a `Create` call. Returns the new file contents, reader
count, writer flag and thread state; `none` when the thread is blocked on the
lock or already finished.
pc 0: `RLock` (blocks while a writer holds the lock); pc 1: read + decode the
file; pc 2: `RUnlock`; pc 3: the pure collision check / ID assignment / append
(the body of `Create` between `loadData` and `saveData`), which either
finishes with `ErrVLANExists` or prepares the dataset to write; pc 4: `Lock`
(blocks while readers or a writer hold the lock); pc 5: `os.WriteFile`;
pc 6: `Unlock`; pc 7: finished. -/
def createStep (input : VLANInput) (now : Int) (file : Dataset)
    (readers : Nat) (writer : Bool) (t : TState) :
    Option (Dataset × Nat × Bool × TState) :=
  match t.pc with
  | 0 => if writer then none else some (file, readers + 1, writer, { t with pc := 1 })
  | 1 => some (file, readers, writer, { t with pc := 2, data := file })
  | 2 => some (file, readers - 1, writer, { t with pc := 3 })
  | 3 =>
    match create t.data input now with
    | .error e => some (file, readers, writer, { t with pc := 7, result := some (.error e) })
    | .ok (d', newVLAN) =>
      some (file, readers, writer,
        { t with pc := 4, toWrite := d', result := some (.ok newVLAN) })
  | 4 =>
    if readers ≠ 0 ∨ writer then none
    else some (file, readers, true, { t with pc := 5 })
  | 5 => some (t.toWrite, readers, writer, { t with pc := 6 })
  | 6 => some (file, readers, false, { t with pc := 7 })
  | _ => none

/-- Thread identifiers for the two concurrent calls. -/
inductive Tid where
  | A
  | B
  deriving Repr, DecidableEq

/-- The two `Create` calls' arguments. -/
structure TwoCreates where
  inputA : VLANInput
  nowA : Int
  inputB : VLANInput
  nowB : Int
  deriving Repr

/-- Shared-memory configuration: the backing file, the `RWMutex` state and
both goroutines. -/
structure Sys where
  file : Dataset
  readers : Nat
  writer : Bool
  tA : TState
  tB : TState
  deriving Repr

/-- Schedule one step of the chosen goroutine; `none` when that goroutine is
blocked or done (such a schedule is discarded). -/
def sysStep (cfg : TwoCreates) (s : Sys) (t : Tid) : Option Sys :=
  match t with
  | .A =>
    (createStep cfg.inputA cfg.nowA s.file s.readers s.writer s.tA).map
      (fun out => { s with file := out.1, readers := out.2.1, writer := out.2.2.1, tA := out.2.2.2 })
  | .B =>
    (createStep cfg.inputB cfg.nowB s.file s.readers s.writer s.tB).map
      (fun out => { s with file := out.1, readers := out.2.1, writer := out.2.2.1, tB := out.2.2.2 })

/-- Run a schedule (a list of thread choices) from a configuration. -/
def runSched (cfg : TwoCreates) : Sys → List Tid → Option Sys
  | s, [] => some s
  | s, t :: rest =>
    match sysStep cfg s t with
    | none => none
    | some s' => runSched cfg s' rest

/-- Initial configuration: both goroutines at their first instruction, the
lock free, the file holding dataset `d`. -/
def initSys (d : Dataset) : Sys :=
  { file := d, readers := 0, writer := false, tA := initT, tB := initT }

/-! ### Validation rules as the spec states them (for claim C6) -/

/-- Rule 1: `name` between 1 and 255 bytes (`len` in Go is the byte length). -/
def nameRule (v : VLANInput) : Prop := v.name ≠ "" ∧ v.name.utf8ByteSize ≤ 255

/-- Rule 2: `vlanTag` in `[1, 4094]`. -/
def tagRule (v : VLANInput) : Prop := 1 ≤ v.vlanID ∧ v.vlanID ≤ 4094

/-- Rule 3: `subnet` passes the CIDR check. -/
def subnetRule (v : VLANInput) : Prop := isValidCIDR v.subnet = true

/-- Rule 4: `gateway` passes the IP check. -/
def gatewayRule (v : VLANInput) : Prop := isValidIP v.gateway = true

/-- Rule 5: `status` is one of the three admissible values. -/
def statusRule (v : VLANInput) : Prop :=
  v.status = "active" ∨ v.status = "inactive" ∨ v.status = "maintenance"

/-! ### Proof infrastructure -/

/-- The two per-digit checks of `parseIPv4Fields` in isolation (leading zero,
octet overflow), used to factor the digit-run portion of its traversal. -/
def okRun : Nat → Nat → List Char → Bool
  | _, _, [] => true
  | val, digLen, c :: rest =>
    if digLen == 1 && val == 0 then false
    else if val * 10 + digitVal c > 255 then false
    else okRun (val * 10 + digitVal c) (digLen + 1) rest

/-- The field overwrite performed by the `Update` loop body (storage.go lines
184-189): every field except `ID` and `CreatedAt`, with `UpdatedAt` refreshed. -/
def applyInput (vlan : VLANModel) (input : VLANInput) (now : Int) : VLANModel :=
  { vlan with
    name := input.name
    vlanID := input.vlanID
    subnet := input.subnet
    gateway := input.gateway
    status := input.status
    updatedAt := now }

/-! ### Concrete sample data for witnesses and counterexamples -/

/-- A stored record used as seed data. -/
def seedVLAN : VLANModel :=
  { id := 1, name := "seed", vlanID := 5, subnet := "10.0.0.0/8",
    gateway := "10.0.0.1", status := "active", createdAt := 0, updatedAt := 0 }

/-- A valid input with the given name and tag. -/
def mkInput (name : String) (tag : Int) : VLANInput :=
  { name := name, vlanID := tag, subnet := "192.168.1.0/24",
    gateway := "192.168.1.1", status := "active" }

/-- The two concurrent `Create` calls of the race scenario: distinct tags, so
neither collides with the other or with `seedVLAN`. -/
def raceCfg : TwoCreates :=
  { inputA := mkInput "a" 10, nowA := 1, inputB := mkInput "b" 20, nowB := 2 }

/-- The racy schedule: both goroutines run `loadData` and the unlocked compute
phase before either enters `saveData`. -/
def raceSched : List Tid :=
  [.A, .A, .A, .A, .B, .B, .B, .B, .A, .A, .A, .B, .B, .B]

/-! ## Helper lemmas -/

theorem le_foldlMax (d : Dataset) (acc : Int) :
    acc ≤ d.foldl (fun maxID vlan => if vlan.id > maxID then vlan.id else maxID) acc := by
  induction d generalizing acc with
  | nil => simp
  | cons v rest ih =>
    simp only [List.foldl_cons]
    refine le_trans ?_ (ih _)
    split <;> omega

theorem mem_le_foldlMax (d : Dataset) (v : VLANModel) :
    ∀ acc : Int, v ∈ d →
      v.id ≤ d.foldl (fun maxID vlan => if vlan.id > maxID then vlan.id else maxID) acc := by
  induction d with
  | nil => intro acc hv; cases hv
  | cons u rest ih =>
    intro acc hv
    simp only [List.foldl_cons]
    rcases List.mem_cons.mp hv with rfl | hv'
    · refine le_trans ?_ (le_foldlMax rest _)
      split <;> omega
    · exact ih _ hv'

theorem foldlMax_mem_or (d : Dataset) (acc : Int) :
    d.foldl (fun maxID vlan => if vlan.id > maxID then vlan.id else maxID) acc = acc ∨
      d.foldl (fun maxID vlan => if vlan.id > maxID then vlan.id else maxID) acc
        ∈ d.map VLANModel.id := by
  induction d generalizing acc with
  | nil => exact Or.inl rfl
  | cons u rest ih =>
    simp only [List.foldl_cons, List.map_cons]
    rcases ih (if u.id > acc then u.id else acc) with h | h
    · rw [h]
      split
      · exact Or.inr (List.mem_cons_self _ _)
      · exact Or.inl rfl
    · exact Or.inr (List.mem_cons_of_mem _ h)

theorem getByID_ok_id (d : Dataset) (id : Int) (v : VLANModel)
    (h : getByID d id = .ok v) : v.id = id := by
  unfold getByID at h
  split at h
  · rename_i w hw
    injection h with hwv
    subst hwv
    simpa using List.find?_some hw
  · cases h

/-! ## Claims -/

/-- C1 (counterexample): the interleaving `raceSched` of two concurrent
`Create` calls is permitted by the locking discipline actually in the code (a
read lock around the file load, a write lock around the file save, nothing in
between): both calls complete, both observe next id 2, both persist a record
with id 2, and the second write clobbers the first (the final file holds only
record `"b"`). This contradicts the claim that the lock serializes whole
operations and that two concurrent Creates can never collide on the next id. -/
theorem create_race_both_observe_id2 :
    (runSched raceCfg (initSys [seedVLAN]) raceSched).map
        (fun s => (s.tA.pc, s.tB.pc, s.file, s.tA.result, s.tB.result)) =
      some (7, 7,
        [seedVLAN,
         { id := 2, name := "b", vlanID := 20, subnet := "192.168.1.0/24",
           gateway := "192.168.1.1", status := "active", createdAt := 2, updatedAt := 2 }],
        some (.ok { id := 2, name := "a", vlanID := 10, subnet := "192.168.1.0/24",
                    gateway := "192.168.1.1", status := "active", createdAt := 1, updatedAt := 1 }),
        some (.ok { id := 2, name := "b", vlanID := 20, subnet := "192.168.1.0/24",
                    gateway := "192.168.1.1", status := "active", createdAt := 2, updatedAt := 2 })) :=
  rfl

/-- C1 (amended): the `RWMutex` is held only for the duration of the file read
inside `loadData` and of the file write inside `saveData`, not across an
operation's whole load+compute+persist cycle; consequently storage operations
are not globally serialized, and there is a schedule under which two concurrent
`Create` calls both run to completion and both return records with the same id.
The mutex itself is respected: a schedule in which one goroutine tries to take
the read lock while the other holds the write lock is rejected. -/
theorem create_race_exists :
    (∃ sched : List Tid,
      (runSched raceCfg (initSys [seedVLAN]) sched).map
          (fun s => decide (s.tA.pc = 7) && decide (s.tB.pc = 7) &&
            (match s.tA.result, s.tB.result with
             | some (Except.ok ra), some (Except.ok rb) => ra.id == rb.id
             | _, _ => false)) = some true) ∧
    runSched raceCfg (initSys [seedVLAN]) [.A, .A, .A, .A, .A, .B] = none :=
  ⟨⟨raceSched, rfl⟩, rfl⟩

/-- C2: on a collision-free input, `Create` appends a record carrying the
input's fields and both timestamps set to now, whose id is 1 on an empty
dataset and `max(existing ids) + 1` otherwise; and the concrete scenario
create ids 1,2,3 → delete 3 → create assigns id 3 again, not 4. -/
theorem create_assigns_next_id :
    (∀ (d : Dataset) (input : VLANInput) (now : Int),
      (∀ v ∈ d, v.vlanID ≠ input.vlanID) → (∀ v ∈ d, 1 ≤ v.id) →
      ∃ rec, create d input now = .ok (d ++ [rec], rec) ∧
        rec.name = input.name ∧ rec.vlanID = input.vlanID ∧
        rec.subnet = input.subnet ∧ rec.gateway = input.gateway ∧
        rec.status = input.status ∧ rec.createdAt = now ∧ rec.updatedAt = now ∧
        ((d = [] ∧ rec.id = 1) ∨
          ∃ m, m ∈ d.map VLANModel.id ∧ (∀ x ∈ d.map VLANModel.id, x ≤ m) ∧
            rec.id = m + 1)) ∧
    (create (deleteFile (createFile (createFile (createFile []
          (mkInput "one" 10) 1) (mkInput "two" 20) 2) (mkInput "three" 30) 3) 3)
        (mkInput "four" 40) 4).map (fun p => p.2.id) = .ok 3 := by
  constructor
  · intro d input now hTag hPos
    have hAny : d.any (fun vlan => vlan.vlanID == input.vlanID) = false := by
      rw [List.any_eq_false]
      intro v hv
      simpa using hTag v hv
    refine ⟨{ id := if d.length > 0 then maxIDfold d + 1 else 1, name := input.name,
              vlanID := input.vlanID, subnet := input.subnet, gateway := input.gateway,
              status := input.status, createdAt := now, updatedAt := now },
      ?_, rfl, rfl, rfl, rfl, rfl, rfl, rfl, ?_⟩
    · unfold create
      rw [hAny]
      simp
    by_cases hd : d = []
    · subst hd
      exact Or.inl ⟨rfl, by simp⟩
    · have hlen : d.length > 0 := List.length_pos.mpr hd
      refine Or.inr ⟨maxIDfold d, ?_, ?_, by simp [hlen]⟩
      · rcases foldlMax_mem_or d 0 with h | h
        · exfalso
          obtain ⟨v, hv⟩ := List.exists_mem_of_ne_nil d hd
          have h1 := hPos v hv
          have h2 := mem_le_foldlMax d v 0 hv
          simp only [maxIDfold] at *
          omega
        · exact h
      · intro x hx
        obtain ⟨v, hv, rfl⟩ := List.mem_map.mp hx
        exact mem_le_foldlMax d v 0 hv
  · rfl

/-- C2 witness: the general branch instantiated on the one-record dataset
`[seedVLAN]` with a fresh tag. -/
theorem create_assigns_next_id_witness :
    (∀ v ∈ [seedVLAN], v.vlanID ≠ (mkInput "w" 10).vlanID) ∧
    (∀ v ∈ [seedVLAN], 1 ≤ v.id) ∧
    ∃ rec, create [seedVLAN] (mkInput "w" 10) 7 = .ok ([seedVLAN] ++ [rec], rec) ∧
      rec.name = (mkInput "w" 10).name ∧ rec.vlanID = (mkInput "w" 10).vlanID ∧
      rec.subnet = (mkInput "w" 10).subnet ∧ rec.gateway = (mkInput "w" 10).gateway ∧
      rec.status = (mkInput "w" 10).status ∧ rec.createdAt = 7 ∧ rec.updatedAt = 7 ∧
      (([seedVLAN] = ([] : Dataset) ∧ rec.id = 1) ∨
        ∃ m, m ∈ [seedVLAN].map VLANModel.id ∧
          (∀ x ∈ [seedVLAN].map VLANModel.id, x ≤ m) ∧ rec.id = m + 1) :=
  ⟨by decide, by decide,
    create_assigns_next_id.1 [seedVLAN] (mkInput "w" 10) 7 (by decide) (by decide)⟩

/-- C3: `Create` on an input whose tag is already present fails with
`AlreadyExists`, and both the persisted file and what `GetAll` returns are
exactly as before the call. -/
theorem create_conflict_rejected :
    ∀ (d : Dataset) (input : VLANInput) (now : Int),
      (∃ v ∈ d, v.vlanID = input.vlanID) →
      create d input now = .error .vlanExists ∧
      createFile d input now = d ∧
      getAll (createFile d input now) = getAll d := by
  rintro d input now ⟨v, hv, he⟩
  have hAny : d.any (fun vlan => vlan.vlanID == input.vlanID) = true :=
    List.any_eq_true.mpr ⟨v, hv, by simp [he]⟩
  refine ⟨by simp [create, hAny], ?_, ?_⟩ <;>
    simp [createFile, create, getAll, hAny]

/-- C3 witness: creating a second record with `seedVLAN`'s tag 5 is rejected
and leaves the dataset alone. -/
theorem create_conflict_rejected_witness :
    (∃ v ∈ [seedVLAN], v.vlanID = (mkInput "dup" 5).vlanID) ∧
    (create [seedVLAN] (mkInput "dup" 5) 9 = .error .vlanExists ∧
      createFile [seedVLAN] (mkInput "dup" 5) 9 = [seedVLAN] ∧
      getAll (createFile [seedVLAN] (mkInput "dup" 5) 9) = getAll [seedVLAN]) :=
  ⟨by decide, create_conflict_rejected [seedVLAN] (mkInput "dup" 5) 9 (by decide)⟩

/-- C5: the claim asserts that for every dataset, including the empty one,
`Delete` fails with `NotFound` when no record has the id. On the empty dataset
the code instead panics: `make([]models.VLANModel, 0, len(data.VLANs)-1)`
(storage.go line 211) is evaluated with capacity -1 before the `found` check,
so the call aborts and no `NotFound` error is ever produced there. On every
nonempty dataset the claimed behavior holds: `NotFound` on an absent id with
nothing persisted; on a present id exactly the records with that id are
removed, every other record keeps its multiplicity and relative order (the
result is a sublist), and the result is persisted. -/
theorem delete_empty_panics :
    ∀ (d : Dataset) (id : Int),
      (d = [] →
        delete d id = .panicked ∧ delete d id ≠ .error .vlanNotFound) ∧
      (d ≠ [] →
        ((∀ v ∈ d, v.id ≠ id) →
          delete d id = .error .vlanNotFound ∧ deleteFile d id = d) ∧
        ((∃ v ∈ d, v.id = id) →
          ∃ l, delete d id = .ok l ∧ deleteFile d id = l ∧ l.Sublist d ∧
            (∀ v ∈ l, v.id ≠ id) ∧ (∀ v ∈ d, v.id ≠ id → v ∈ l) ∧
            (∀ v : VLANModel, v.id ≠ id → l.count v = d.count v))) := by
  intro d id
  constructor
  · intro he
    subst he
    refine ⟨rfl, fun h => ?_⟩
    have h' : DeleteOutcome.panicked = DeleteOutcome.error .vlanNotFound := h
    exact DeleteOutcome.noConfusion h'
  · intro hd
    have hge : ¬ ((d.length : Int) - 1 < 0) := by
      have h1 : 0 < d.length := List.length_pos.mpr hd
      omega
    constructor
    · intro h
      have hAny : d.any (fun vlan => vlan.id == id) = false := by
        rw [List.any_eq_false]
        intro v hv
        simpa using h v hv
      constructor <;> simp [delete, deleteFile, hge, hAny]
    · rintro ⟨v, hv, he⟩
      have hAny : d.any (fun vlan => vlan.id == id) = true :=
        List.any_eq_true.mpr ⟨v, hv, by simp [he]⟩
      refine ⟨d.filter (fun vlan => vlan.id != id), by simp [delete, hge, hAny],
        by simp [deleteFile, delete, hge, hAny], List.filter_sublist d, ?_, ?_, ?_⟩
      · intro w hw
        have := (List.mem_filter.mp hw).2
        simpa using this
      · intro w hw hne
        exact List.mem_filter.mpr ⟨hw, by simpa using hne⟩
      · intro w hne
        exact List.count_filter (by simpa using hne)

/-- C5 witness: `Delete` on the empty dataset panics instead of failing with
`NotFound`; deleting id 1 from `[seedVLAN]` removes the record and persists. -/
theorem delete_empty_panics_witness :
    (delete ([] : Dataset) 1 = .panicked ∧
      delete ([] : Dataset) 1 ≠ .error .vlanNotFound) ∧
    (∃ v ∈ [seedVLAN], v.id = 1) ∧
    (∃ l, delete [seedVLAN] 1 = .ok l ∧ deleteFile [seedVLAN] 1 = l ∧
      l.Sublist [seedVLAN] ∧ (∀ v ∈ l, v.id ≠ 1) ∧
      (∀ v ∈ [seedVLAN], v.id ≠ 1 → v ∈ l) ∧
      (∀ v : VLANModel, v.id ≠ 1 → l.count v = [seedVLAN].count v)) :=
  ⟨(delete_empty_panics [] 1).1 rfl, by decide,
    ((delete_empty_panics [seedVLAN] 1).2 (List.cons_ne_nil seedVLAN [])).2
      (by decide)⟩

/-- C9: a successful `Create` immediately followed by `GetByID` on the
returned id finds exactly the created record in the persisted dataset. -/
theorem create_getByID_roundtrip :
    ∀ (d : Dataset) (input : VLANInput) (now : Int) (d' : Dataset) (rec : VLANModel),
      create d input now = .ok (d', rec) → getByID d' rec.id = .ok rec := by
  intro d input now d' rec h
  by_cases hAny : d.any (fun vlan => vlan.vlanID == input.vlanID) = true
  · simp [create, hAny] at h
  · have hAny' : d.any (fun vlan => vlan.vlanID == input.vlanID) = false :=
      Bool.eq_false_iff.mpr hAny
    simp only [create, hAny', Bool.false_eq_true, if_false, Except.ok.injEq, Prod.mk.injEq] at h
    obtain ⟨hd', hrec⟩ := h
    subst hd'
    subst hrec
    unfold getByID
    rw [List.find?_append]
    have hnone : d.find? (fun vlan =>
        vlan.id == (if d.length > 0 then maxIDfold d + 1 else 1 : Int)) = none := by
      rw [List.find?_eq_none]
      intro v hv
      have hle := mem_le_foldlMax d v 0 hv
      have hlen : d.length > 0 := List.length_pos.mpr (List.ne_nil_of_mem hv)
      simp only [maxIDfold] at *
      simp only [hlen, if_true, beq_iff_eq]
      omega
    rw [hnone]
    simp

/-- C9 witness: create into the empty dataset, then fetch id 1. -/
theorem create_getByID_roundtrip_witness :
    create ([] : Dataset) (mkInput "w" 10) 0 =
      .ok ([{ id := 1, name := "w", vlanID := 10, subnet := "192.168.1.0/24",
              gateway := "192.168.1.1", status := "active",
              createdAt := 0, updatedAt := 0 }],
           { id := 1, name := "w", vlanID := 10, subnet := "192.168.1.0/24",
             gateway := "192.168.1.1", status := "active",
             createdAt := 0, updatedAt := 0 }) ∧
    getByID [{ id := 1, name := "w", vlanID := 10, subnet := "192.168.1.0/24",
               gateway := "192.168.1.1", status := "active",
               createdAt := 0, updatedAt := 0 }] 1 =
      .ok { id := 1, name := "w", vlanID := 10, subnet := "192.168.1.0/24",
            gateway := "192.168.1.1", status := "active",
            createdAt := 0, updatedAt := 0 } :=
  ⟨rfl, create_getByID_roundtrip [] (mkInput "w" 10) 0 _ _ rfl⟩

/-- C10: an id extracted from a per-record path is always within `[1, 4094]`;
hence the GET handler can only ever return records with ids in that range,
while `Create` on a dataset whose maximum id is 4094 readily assigns id 4095 —
a record that the path parser will never accept. -/
theorem path_id_bounded :
    (∀ (path : String) (id : Int),
      extractIDFromPath path = some id → 1 ≤ id ∧ id ≤ 4094) ∧
    (∀ (d : Dataset) (path : String) (v : VLANModel),
      getVLANHandler d path = .ok v → 1 ≤ v.id ∧ v.id ≤ 4094) ∧
    (create [{ seedVLAN with id := 4094 }] (mkInput "big" 10) 0).map
        (fun p => p.2.id) = .ok 4095 ∧
    extractIDFromPath "/api/v1/vlans/4095" = none := by
  have h1 : ∀ (path : String) (id : Int),
      extractIDFromPath path = some id → 1 ≤ id ∧ id ≤ 4094 := by
    intro path id h
    simp only [extractIDFromPath] at h
    split at h
    · cases h
    · split at h
      · cases h
      · split at h
        · cases h
        · split at h
          · cases h
          · cases h
            rename_i hrange
            omega
  refine ⟨h1, ?_, rfl, rfl⟩
  intro d path v h
  unfold getVLANHandler at h
  split at h
  · cases h
  · rename_i id hex
    split at h
    · rename_i w hw
      cases h
      have := getByID_ok_id d id v hw
      have hb := h1 path id hex
      omega
    · cases h

/-- C10 witness: the path-extraction bound at a concrete path. -/
theorem path_id_bounded_witness :
    extractIDFromPath "/api/v1/vlans/5" = some 5 ∧ (1 ≤ (5 : Int) ∧ (5 : Int) ≤ 4094) :=
  ⟨rfl, path_id_bounded.1 "/api/v1/vlans/5" 5 rfl⟩

theorem updateLoop_not_found (d : Dataset) (id : Int) (input : VLANInput) (now : Int)
    (rem : Dataset) (h : ∀ v ∈ rem, v.id ≠ id) :
    updateLoop d id input now rem = .error .vlanNotFound := by
  induction rem with
  | nil => rfl
  | cons v rest ih =>
    have hv : (v.id == id) = false := by
      simpa using h v (List.mem_cons_self _ _)
    have hrest := ih (fun w hw => h w (List.mem_cons_of_mem _ hw))
    simp only [updateLoop, hv, Bool.false_eq_true, if_false, hrest]

theorem updateLoop_found (d : Dataset) (id : Int) (input : VLANInput) (now : Int) :
    ∀ (pre : Dataset) (v : VLANModel) (post : Dataset),
      (∀ u ∈ pre, u.id ≠ id) → v.id = id →
      updateLoop d id input now (pre ++ v :: post) =
        if (v.vlanID != input.vlanID &&
            d.any (fun w => w.id != id && w.vlanID == input.vlanID)) = true then
          .error .vlanExists
        else
          .ok (pre ++ applyInput v input now :: post, applyInput v input now) := by
  intro pre
  induction pre with
  | nil =>
    intro v post _ hv
    have hvid : (v.id == id) = true := beq_iff_eq.mpr hv
    rw [List.nil_append]
    simp only [updateLoop]
    rw [hvid]
    rfl
  | cons u pre' ih =>
    intro v post hpre hv
    have hu : (u.id == id) = false := by
      simpa using hpre u (List.mem_cons_self _ _)
    have hrec := ih v post (fun w hw => hpre w (List.mem_cons_of_mem _ hw)) hv
    rw [List.cons_append]
    simp only [updateLoop]
    rw [hu]
    simp only [Bool.false_eq_true, if_false]
    cases hcnd : (v.vlanID != input.vlanID &&
        d.any (fun w => w.id != id && w.vlanID == input.vlanID)) with
    | true =>
      rw [hrec, if_pos hcnd]
      rfl
    | false =>
      have hnc : ¬ ((v.vlanID != input.vlanID &&
          d.any (fun w => w.id != id && w.vlanID == input.vlanID)) = true) := by
        simp [hcnd]
      rw [hrec, if_neg hnc]
      rfl

/-- C4: `Update(id, input)` fails with `NotFound` when no record has the id.
When the target (the first record with the id) exists: if the input's tag
differs from the target's and some other record carries the input's tag, it
fails with `AlreadyExists` and nothing is persisted; otherwise — in particular
always when the tag is unchanged, regardless of other records — it succeeds,
overwriting every field except `id` and `createdAt`, setting `updatedAt` to
now, persisting the dataset with exactly that one position replaced, and
returning the updated record. -/
theorem update_spec :
    ∀ (d : Dataset) (id : Int) (input : VLANInput) (now : Int),
      ((∀ v ∈ d, v.id ≠ id) →
        update d id input now = .error .vlanNotFound ∧
        updateFile d id input now = d) ∧
      (∀ (pre : Dataset) (v : VLANModel) (post : Dataset),
        d = pre ++ v :: post → (∀ u ∈ pre, u.id ≠ id) → v.id = id →
        ((v.vlanID ≠ input.vlanID ∧ ∃ w ∈ d, w.id ≠ id ∧ w.vlanID = input.vlanID) →
          update d id input now = .error .vlanExists ∧
          updateFile d id input now = d) ∧
        ((v.vlanID = input.vlanID ∨ ∀ w ∈ d, w.id ≠ id → w.vlanID ≠ input.vlanID) →
          ∃ r, update d id input now = .ok (pre ++ r :: post, r) ∧
            updateFile d id input now = pre ++ r :: post ∧
            r.id = v.id ∧ r.createdAt = v.createdAt ∧
            r.name = input.name ∧ r.vlanID = input.vlanID ∧
            r.subnet = input.subnet ∧ r.gateway = input.gateway ∧
            r.status = input.status ∧ r.updatedAt = now)) := by
  intro d id input now
  constructor
  · intro h
    have hu : update d id input now = .error .vlanNotFound :=
      updateLoop_not_found d id input now d h
    exact ⟨hu, by simp [updateFile, hu]⟩
  · intro pre v post hd hpre hv
    subst hd
    have hloop := updateLoop_found (pre ++ v :: post) id input now pre v post hpre hv
    constructor
    · rintro ⟨hne, w, hw, hwid, hwtag⟩
      have hcond : (v.vlanID != input.vlanID &&
          (pre ++ v :: post).any (fun w => w.id != id && w.vlanID == input.vlanID)) = true := by
        rw [Bool.and_eq_true]
        refine ⟨by simpa using hne, List.any_eq_true.mpr ⟨w, hw, ?_⟩⟩
        rw [Bool.and_eq_true]
        exact ⟨by simpa using hwid, by simpa using hwtag⟩
      have hu : update (pre ++ v :: post) id input now = .error .vlanExists := by
        unfold update
        rw [hloop, if_pos hcond]
      exact ⟨hu, by simp [updateFile, hu]⟩
    · intro hok
      have hcond : (v.vlanID != input.vlanID &&
          (pre ++ v :: post).any (fun w => w.id != id && w.vlanID == input.vlanID)) = false := by
        rcases hok with hsame | hnone
        · simp [hsame]
        · cases hb : (v.vlanID != input.vlanID) with
          | false => simp [hb]
          | true =>
            have hany : (pre ++ v :: post).any
                (fun w => w.id != id && w.vlanID == input.vlanID) = false := by
              rw [List.any_eq_false]
              intro w hw hcontra
              rw [Bool.and_eq_true] at hcontra
              exact (hnone w hw (by simpa using hcontra.1)) (by simpa using hcontra.2)
            simp [hany]
      have hu : update (pre ++ v :: post) id input now =
          .ok (pre ++ applyInput v input now :: post, applyInput v input now) := by
        unfold update
        rw [hloop, if_neg (by simp only [hcond]; exact Bool.false_ne_true)]
      exact ⟨applyInput v input now, hu, by simp [updateFile, hu],
        rfl, rfl, rfl, rfl, rfl, rfl, rfl, rfl⟩

/-- C4 witness: updating `seedVLAN` (id 1) keeping its tag 5 succeeds. -/
theorem update_spec_witness :
    ([seedVLAN] = ([] : Dataset) ++ seedVLAN :: []) ∧
    (∀ u ∈ ([] : Dataset), u.id ≠ 1) ∧ seedVLAN.id = 1 ∧
    (seedVLAN.vlanID = (mkInput "renamed" 5).vlanID ∨
      ∀ w ∈ [seedVLAN], w.id ≠ 1 → w.vlanID ≠ (mkInput "renamed" 5).vlanID) ∧
    (∃ r, update [seedVLAN] 1 (mkInput "renamed" 5) 9 = .ok (([] : Dataset) ++ r :: [], r) ∧
      updateFile [seedVLAN] 1 (mkInput "renamed" 5) 9 = ([] : Dataset) ++ r :: [] ∧
      r.id = seedVLAN.id ∧ r.createdAt = seedVLAN.createdAt ∧
      r.name = (mkInput "renamed" 5).name ∧ r.vlanID = (mkInput "renamed" 5).vlanID ∧
      r.subnet = (mkInput "renamed" 5).subnet ∧ r.gateway = (mkInput "renamed" 5).gateway ∧
      r.status = (mkInput "renamed" 5).status ∧ r.updatedAt = 9) :=
  ⟨rfl, by decide, rfl, Or.inl rfl,
    ((update_spec [seedVLAN] 1 (mkInput "renamed" 5) 9).2 [] seedVLAN []
      rfl (by decide) rfl).2 (Or.inl rfl)⟩

/-- C6: `Validate` checks name length, tag range, subnet format, gateway
format and status membership in that fixed order, short-circuiting on the
first failure: each error is returned exactly when its rule fails and every
earlier rule passes, and success is returned exactly when all five pass. -/
theorem validate_first_failure :
    ∀ v : VLANInput,
      (validate v = .error .invalidName ↔ ¬ nameRule v) ∧
      (validate v = .error .invalidVlanTag ↔ nameRule v ∧ ¬ tagRule v) ∧
      (validate v = .error .invalidSubnet ↔ nameRule v ∧ tagRule v ∧ ¬ subnetRule v) ∧
      (validate v = .error .invalidGateway ↔
        nameRule v ∧ tagRule v ∧ subnetRule v ∧ ¬ gatewayRule v) ∧
      (validate v = .error .invalidStatus ↔
        nameRule v ∧ tagRule v ∧ subnetRule v ∧ gatewayRule v ∧ ¬ statusRule v) ∧
      (validate v = .ok () ↔
        nameRule v ∧ tagRule v ∧ subnetRule v ∧ gatewayRule v ∧ statusRule v) := by
  intro v
  by_cases h1 : v.name = "" ∨ v.name.utf8ByteSize > 255
  · have hnr : ¬ nameRule v := by
      rintro ⟨ha, hb⟩
      rcases h1 with h | h
      · exact ha h
      · omega
    simp [validate, h1, hnr]
  · have hnr : nameRule v := by
      push_neg at h1
      exact ⟨h1.1, by omega⟩
    by_cases h2 : v.vlanID < 1 ∨ v.vlanID > 4094
    · have htr : ¬ tagRule v := by
        rintro ⟨ha, hb⟩
        rcases h2 with h | h <;> omega
      simp [validate, h1, h2, hnr, htr]
    · have htr : tagRule v := by
        push_neg at h2
        exact ⟨by omega, by omega⟩
      by_cases h3 : isValidCIDR v.subnet = true
      · by_cases h4 : isValidIP v.gateway = true
        · by_cases h5 : v.status = "active" ∨ v.status = "inactive" ∨
              v.status = "maintenance"
          · simp [validate, h1, h2, h3, h4, h5, hnr, htr,
              subnetRule, gatewayRule, statusRule]
          · simp [validate, h1, h2, h3, h4, h5, hnr, htr,
              subnetRule, gatewayRule, statusRule]
        · simp [validate, h1, h2, h3, h4, hnr, htr,
            subnetRule, gatewayRule, statusRule]
      · simp [validate, h1, h2, h3, hnr, htr,
          subnetRule, gatewayRule, statusRule]

/-! ## Character and split lemmas for the address parsers -/

theorem digit_ne (c x : Char) (h : isDigitChar c = true) (hx : isDigitChar x = false) :
    c ≠ x := by
  intro e
  subst e
  rw [h] at hx
  cases hx

theorem digit_toNat_ge (c : Char) (h : isDigitChar c = true) : '0'.toNat ≤ c.toNat := by
  rw [isDigitChar, Bool.and_eq_true] at h
  exact of_decide_eq_true h.1

theorem digit_eq_zero_char (c : Char) (h : isDigitChar c = true) (h0 : digitVal c = 0) :
    c = '0' := by
  have hge := digit_toNat_ge c h
  have : c.toNat = '0'.toNat := by
    rw [digitVal] at h0
    omega
  apply Char.eq_of_val_eq
  unfold Char.toNat at this
  exact UInt32.toNat.inj this

theorem digitVal_pos (c : Char) (h : isDigitChar c = true) (h0 : c ≠ '0') :
    1 ≤ digitVal c := by
  by_contra hlt
  push_neg at hlt
  interval_cases hdv : digitVal c
  exact h0 (digit_eq_zero_char c h hdv)

theorem splitOnChar_ne_nil (sep : Char) (s : List Char) : splitOnChar sep s ≠ [] := by
  cases s with
  | nil => simp [splitOnChar]
  | cons c rest =>
    simp only [splitOnChar]
    split
    · exact List.cons_ne_nil _ _
    · split
      · exact List.cons_ne_nil _ _
      · exact List.cons_ne_nil _ _

theorem splitOnChar_no_sep (sep : Char) (s : List Char) (h : ∀ c ∈ s, c ≠ sep) :
    splitOnChar sep s = [s] := by
  induction s with
  | nil => rfl
  | cons c rest ih =>
    have hc : ¬ (c = sep) := h c (List.mem_cons_self _ _)
    have hr := ih (fun x hx => h x (List.mem_cons_of_mem _ hx))
    simp only [splitOnChar, if_neg hc, hr]

theorem splitOnChar_append (sep : Char) (a r : List Char) (h : ∀ c ∈ a, c ≠ sep) :
    splitOnChar sep (a ++ sep :: r) = a :: splitOnChar sep r := by
  induction a with
  | nil => simp [splitOnChar]
  | cons c a' ih =>
    have hc : ¬ (c = sep) := h c (List.mem_cons_self _ _)
    have hr := ih (fun x hx => h x (List.mem_cons_of_mem _ hx))
    have hr' : splitOnChar sep (a'.append (sep :: r)) = a' :: splitOnChar sep r := hr
    simp only [List.cons_append, splitOnChar, if_neg hc, hr, hr']

theorem splitOnChar_inv (sep : Char) (s : List Char) :
    ∀ (g : List Char) (gs : List (List Char)), splitOnChar sep s = g :: gs →
      (∀ c ∈ g, c ≠ sep) ∧
      ((gs = [] ∧ s = g) ∨ ∃ s', s = g ++ sep :: s' ∧ splitOnChar sep s' = gs) := by
  induction s with
  | nil =>
    intro g gs h
    simp only [splitOnChar] at h
    injection h with h1 h2
    subst h1
    subst h2
    exact ⟨by simp, Or.inl ⟨rfl, rfl⟩⟩
  | cons c rest ih =>
    intro g gs h
    by_cases hc : c = sep
    · subst hc
      simp only [splitOnChar, if_pos rfl] at h
      injection h with h1 h2
      subst h1
      subst h2
      exact ⟨by simp, Or.inr ⟨rest, by simp, rfl⟩⟩
    · cases hsr : splitOnChar sep rest with
      | nil => exact absurd hsr (splitOnChar_ne_nil sep rest)
      | cons g' gs' =>
        simp only [splitOnChar, if_neg hc, hsr] at h
        injection h with h1 h2
        subst h1
        subst h2
        obtain ⟨hg', hrest⟩ := ih g' gs' hsr
        constructor
        · intro x hx
          rcases List.mem_cons.mp hx with rfl | hx'
          · exact hc
          · exact hg' x hx'
        · rcases hrest with ⟨rfl, rfl⟩ | ⟨s', rfl, hsp⟩
          · exact Or.inl ⟨rfl, rfl⟩
          · exact Or.inr ⟨s', by simp, hsp⟩

theorem mem_splitOnChar_of_mem (sep : Char) (s : List Char) (c : Char)
    (hc : c ∈ s) (hne : c ≠ sep) : ∃ g ∈ splitOnChar sep s, c ∈ g := by
  induction s with
  | nil => cases hc
  | cons x rest ih =>
    by_cases hx : x = sep
    · subst hx
      rcases List.mem_cons.mp hc with rfl | hc'
      · exact absurd rfl hne
      · obtain ⟨g, hg, hcg⟩ := ih hc'
        refine ⟨g, ?_, hcg⟩
        simp only [splitOnChar, if_pos rfl]
        exact List.mem_cons_of_mem _ hg
    · cases hsr : splitOnChar sep rest with
      | nil => exact absurd hsr (splitOnChar_ne_nil sep rest)
      | cons g' gs' =>
        have hform : splitOnChar sep (x :: rest) = (x :: g') :: gs' := by
          simp only [splitOnChar, if_neg hx, hsr]
        rcases List.mem_cons.mp hc with rfl | hc'
        · exact ⟨c :: g', by rw [hform]; exact List.mem_cons_self _ _,
            List.mem_cons_self _ _⟩
        · obtain ⟨g, hg, hcg⟩ := ih hc'
          rw [hsr] at hg
          rcases List.mem_cons.mp hg with rfl | hg'
          · exact ⟨x :: g, by rw [hform]; exact List.mem_cons_self _ _,
              List.mem_cons_of_mem _ hcg⟩
          · exact ⟨g, by rw [hform]; exact List.mem_cons_of_mem _ hg', hcg⟩

theorem mem_of_mem_splitOnChar (sep : Char) (s : List Char) :
    ∀ g ∈ splitOnChar sep s, ∀ c ∈ g, c ∈ s := by
  induction s with
  | nil =>
    intro g hg c hcg
    simp only [splitOnChar] at hg
    rcases List.mem_singleton.mp hg with rfl
    cases hcg
  | cons x rest ih =>
    intro g hg c hcg
    by_cases hx : x = sep
    · subst hx
      simp only [splitOnChar, if_pos rfl] at hg
      rcases List.mem_cons.mp hg with rfl | hg'
      · cases hcg
      · exact List.mem_cons_of_mem _ (ih g hg' c hcg)
    · cases hsr : splitOnChar sep rest with
      | nil => exact absurd hsr (splitOnChar_ne_nil sep rest)
      | cons g' gs' =>
        simp only [splitOnChar, if_neg hx, hsr] at hg
        rcases List.mem_cons.mp hg with rfl | hg'
        · rcases List.mem_cons.mp hcg with rfl | hcg'
          · exact List.mem_cons_self _ _
          · exact List.mem_cons_of_mem _ (ih g' (by rw [hsr]; exact List.mem_cons_self _ _) c hcg')
        · exact List.mem_cons_of_mem _
            (ih g (by rw [hsr]; exact List.mem_cons_of_mem _ hg') c hcg)

/-! ## Digit-run lemmas -/

theorem digitsFold_le (ds : List Char) : ∀ val : Nat,
    val ≤ ds.foldl (fun a c => a * 10 + digitVal c) val := by
  induction ds with
  | nil => intro val; simp
  | cons c rest ih =>
    intro val
    simp only [List.foldl_cons]
    refine le_trans ?_ (ih _)
    omega

theorem digitsVal_snoc (a : List Char) (c : Char) :
    digitsVal (a ++ [c]) = digitsVal a * 10 + digitVal c := by
  simp [digitsVal, List.foldl_append]

theorem digitsVal_prefix_le (a b : List Char) : digitsVal a ≤ digitsVal (a ++ b) := by
  rw [digitsVal, digitsVal, List.foldl_append]
  exact digitsFold_le b _

theorem digitsVal_cons (c : Char) (rest : List Char) :
    digitsVal (c :: rest) = rest.foldl (fun a x => a * 10 + digitVal x) (digitVal c) := by
  simp [digitsVal]

theorem foldl_digits_lower (cs : List Char) : ∀ val : Nat,
    val * 10 ^ cs.length ≤ cs.foldl (fun a c => a * 10 + digitVal c) val := by
  induction cs with
  | nil => intro val; simp
  | cons c rest ih =>
    intro val
    simp only [List.foldl_cons, List.length_cons]
    refine le_trans ?_ (ih (val * 10 + digitVal c))
    calc val * 10 ^ (rest.length + 1) = val * 10 * 10 ^ rest.length := by ring
    _ ≤ (val * 10 + digitVal c) * 10 ^ rest.length := by
        exact Nat.mul_le_mul_right _ (by omega)

theorem okRun_of_spec (ds : List Char) : ∀ pfx : List Char,
    (∀ c ∈ pfx ++ ds, isDigitChar c = true) →
    (2 ≤ (pfx ++ ds).length → (pfx ++ ds).head? ≠ some '0') →
    digitsVal (pfx ++ ds) ≤ 255 →
    okRun (digitsVal pfx) pfx.length ds = true := by
  induction ds with
  | nil => intro pfx _ _ _; rfl
  | cons c rest ih =>
    intro pfx hdig hlz hval
    rw [okRun]
    have htrap : (pfx.length == 1 && digitsVal pfx == 0) = false := by
      cases pfx with
      | nil => rfl
      | cons p ps =>
        cases ps with
        | nil =>
          have hp : isDigitChar p = true := hdig p (by simp)
          have hpz : p ≠ '0' := by
            intro he
            subst he
            exact hlz (by simp) (by simp)
          have : digitsVal [p] = digitVal p := by simp [digitsVal]
          have hpos := digitVal_pos p hp hpz
          simp only [List.length_cons, List.length_nil, this]
          rw [Bool.and_eq_false_iff]
          right
          simp only [beq_eq_false_iff_ne, ne_eq]
          omega
        | cons q qs => simp
    rw [htrap]
    simp only [Bool.false_eq_true, if_false]
    have hv' : digitsVal pfx * 10 + digitVal c ≤ 255 := by
      have h1 : digitsVal (pfx ++ [c]) ≤ digitsVal ((pfx ++ [c]) ++ rest) :=
        digitsVal_prefix_le _ _
      rw [digitsVal_snoc] at h1
      rw [List.append_assoc, List.singleton_append] at h1
      omega
    rw [if_neg (by omega)]
    have := ih (pfx ++ [c])
      (by rw [List.append_assoc, List.singleton_append]; exact hdig)
      (by rw [List.append_assoc, List.singleton_append]; exact hlz)
      (by rw [List.append_assoc, List.singleton_append]; exact hval)
    rw [digitsVal_snoc, List.length_append] at this
    simpa using this

theorem okRun_leading_zero (c : Char) (cs : List Char) :
    okRun 0 0 ('0' :: c :: cs) = false :=
  rfl

theorem okRun_too_big (ds : List Char) : ∀ pfx : List Char,
    digitsVal pfx ≤ 255 → 255 < digitsVal (pfx ++ ds) →
    okRun (digitsVal pfx) pfx.length ds = false := by
  induction ds with
  | nil =>
    intro pfx h1 h2
    rw [List.append_nil] at h2
    omega
  | cons c rest ih =>
    intro pfx h1 h2
    rw [okRun]
    cases htrap : (pfx.length == 1 && digitsVal pfx == 0) with
    | true => rw [if_pos rfl]
    | false =>
      simp only [Bool.false_eq_true, if_false]
      by_cases hv : digitsVal pfx * 10 + digitVal c > 255
      · rw [if_pos hv]
      · rw [if_neg hv]
        have := ih (pfx ++ [c]) (by rw [digitsVal_snoc]; omega)
          (by rw [List.append_assoc, List.singleton_append]; exact h2)
        rw [digitsVal_snoc, List.length_append] at this
        simpa using this

theorem okRun_iff (ds : List Char) (hdig : ∀ c ∈ ds, isDigitChar c = true) :
    okRun 0 0 ds = true ↔
      ((2 ≤ ds.length → ds.head? ≠ some '0') ∧ digitsVal ds ≤ 255) := by
  constructor
  · intro h
    refine ⟨?_, ?_⟩
    · intro hlen h0
      cases ds with
      | nil => simp at hlen
      | cons a cs =>
        have ha : a = '0' := by simpa using h0
        subst ha
        cases cs with
        | nil => simp at hlen
        | cons c cs' =>
          rw [okRun_leading_zero] at h
          cases h
    · by_contra hbig
      push_neg at hbig
      have := okRun_too_big ds [] (by simp [digitsVal]) (by simpa [digitsVal] using hbig)
      simp only [digitsVal, List.foldl_nil, List.length_nil] at this
      rw [this] at h
      cases h
  · rintro ⟨hlz, hval⟩
    have := okRun_of_spec ds []
      (by simpa using hdig) (by simpa using hlz) (by simpa [digitsVal] using hval)
    simpa [digitsVal] using this

/-! ## Factoring `parseIPv4Fields` into digit runs and separators -/

theorem parseIPv4Fields_digit_run (ds : List Char) :
    ∀ (rest : List Char) (val digLen pos : Nat),
      (∀ c ∈ ds, isDigitChar c = true) →
      parseIPv4Fields (ds ++ rest) val digLen pos =
        if okRun val digLen ds then
          parseIPv4Fields rest (ds.foldl (fun a c => a * 10 + digitVal c) val)
            (digLen + ds.length) pos
        else false := by
  induction ds with
  | nil => intro rest val digLen pos _; simp [okRun]
  | cons c ds' ih =>
    intro rest val digLen pos hdig
    have hc : isDigitChar c = true := hdig c (List.mem_cons_self _ _)
    rw [List.cons_append, parseIPv4Fields, if_pos hc, okRun]
    cases htrap : (digLen == 1 && val == 0) with
    | true =>
      rw [if_pos rfl, if_pos rfl]
      rfl
    | false =>
      simp only [Bool.false_eq_true, if_false]
      by_cases hval : val * 10 + digitVal c > 255
      · rw [if_pos hval, if_pos hval]
        rfl
      · rw [if_neg hval, if_neg hval]
        rw [ih rest _ _ pos (fun x hx => hdig x (List.mem_cons_of_mem _ hx))]
        have harith : digLen + 1 + ds'.length = digLen + (ds'.length + 1) := by omega
        rw [harith]
        rfl

theorem parseIPv4Fields_garbage (c : Char) (r : List Char)
    (hc : isDigitChar c = false) (hdot : c ≠ '.') (val digLen pos : Nat) :
    parseIPv4Fields (c :: r) val digLen pos = false := by
  rw [parseIPv4Fields, if_neg (by simp [hc]), if_neg hdot]

theorem parseIPv4Fields_dot (r : List Char) (val digLen pos : Nat) :
    parseIPv4Fields ('.' :: r) val digLen pos =
      if digLen == 0 then false
      else if r = [] then false
      else if pos == 3 then false
      else parseIPv4Fields r 0 0 (pos + 1) := by
  rw [parseIPv4Fields, if_neg (by simp [isDigitChar]), if_pos rfl]

theorem takeWhile_append_not (p : Char → Bool) (a rest : List Char)
    (ha : ∀ c ∈ a, p c = true)
    (hr : ∀ c, rest.head? = some c → p c = false) :
    (a ++ rest).takeWhile p = a ∧ (a ++ rest).dropWhile p = rest := by
  induction a with
  | nil =>
    cases rest with
    | nil => simp
    | cons c r' =>
      have := hr c rfl
      simp [List.takeWhile_cons, List.dropWhile_cons, this]
  | cons c a' ih =>
    have hc : p c = true := ha c (List.mem_cons_self _ _)
    have := ih (fun x hx => ha x (List.mem_cons_of_mem _ hx))
    simp [List.takeWhile_cons, List.dropWhile_cons, hc, this.1, this.2]

/-! ## Characterization of the Go IPv4 parser -/

/-- `parseIPv4Fields` from a fresh-field state accepts exactly the strings
whose dot-separated groups are `4 - pos` canonical octets. -/
theorem parseIPv4Fields_characterization :
    ∀ (n : Nat) (s : List Char) (pos : Nat), s.length ≤ n → pos ≤ 3 → (s = [] → pos = 0) →
      (parseIPv4Fields s 0 0 pos = true ↔
        ((splitOnChar '.' s).length + pos = 4 ∧ ∀ g ∈ splitOnChar '.' s, specOctet g)) := by
  intro n
  induction n with
  | zero =>
    intro s pos hlen hpos hne
    have hs : s = [] := List.length_eq_zero.mp (Nat.le_zero.mp hlen)
    subst hs
    have hp0 : pos = 0 := hne rfl
    subst hp0
    constructor
    · intro h
      exact absurd h (by decide)
    · rintro ⟨h1, _⟩
      simp [splitOnChar] at h1
  | succ n ih =>
    intro s pos hlen hpos hne
    by_cases hs0 : s = []
    · subst hs0
      have hp0 : pos = 0 := hne rfl
      subst hp0
      constructor
      · intro h
        exact absurd h (by decide)
      · rintro ⟨h1, _⟩
        simp [splitOnChar] at h1
    · obtain ⟨ds, rest, hsplit, hds, hrest_head⟩ :
          ∃ ds rest, ds ++ rest = s ∧ (∀ c ∈ ds, isDigitChar c = true) ∧
            (∀ c, rest.head? = some c → isDigitChar c = false) := by
        refine ⟨s.takeWhile isDigitChar, s.dropWhile isDigitChar,
          List.takeWhile_append_dropWhile _ _,
          fun c hc => List.mem_takeWhile_imp hc, ?_⟩
        intro c hc
        have h2 := List.head?_dropWhile_not isDigitChar s
        rw [hc] at h2
        exact h2
      subst hsplit
      have hnodot : ∀ x ∈ ds, x ≠ '.' :=
        fun x hx => digit_ne x '.' (hds x hx) (by decide)
      cases rest with
      | nil =>
        rw [parseIPv4Fields_digit_run ds [] 0 0 pos hds]
        have hds0 : ds ≠ [] := by simpa using hs0
        rw [show ds ++ ([] : List Char) = ds from List.append_nil ds]
        rw [splitOnChar_no_sep '.' ds hnodot]
        by_cases hok : okRun 0 0 ds = true
        · rw [if_pos hok]
          constructor
          · intro h
            have hp3 : pos = 3 := by
              simp [parseIPv4Fields] at h
              omega
            obtain ⟨hlz, hv⟩ := (okRun_iff ds hds).mp hok
            refine ⟨by simp; omega, ?_⟩
            intro g hg
            rcases List.mem_singleton.mp hg with rfl
            exact ⟨hds0, hds, hlz, hv⟩
          · rintro ⟨h1, h2⟩
            have hp3 : pos = 3 := by simp at h1; omega
            subst hp3
            simp [parseIPv4Fields]
        · rw [if_neg hok]
          constructor
          · intro h
            cases h
          · rintro ⟨_, h2⟩
            have hsp := h2 ds (List.mem_singleton.mpr rfl)
            exact absurd ((okRun_iff ds hds).mpr ⟨hsp.2.2.1, hsp.2.2.2⟩) hok
      | cons c r' =>
        have hcd : isDigitChar c = false := hrest_head c rfl
        by_cases hcdot : c = '.'
        · subst hcdot
          rw [parseIPv4Fields_digit_run ds ('.' :: r') 0 0 pos hds,
            splitOnChar_append '.' ds r' hnodot, parseIPv4Fields_dot]
          by_cases hok : okRun 0 0 ds = true
          · rw [if_pos hok]
            by_cases hds0 : ds = []
            · subst hds0
              constructor
              · intro h
                simp at h
              · rintro ⟨_, h2⟩
                have hsp := h2 [] (List.mem_cons_self _ _)
                exact absurd rfl hsp.1
            · have hc1 : ¬(((0 + ds.length) == 0) = true) := by
                simp [List.length_eq_zero, hds0]
              rw [if_neg hc1]
              by_cases hr'0 : r' = []
              · rw [if_pos hr'0]
                subst hr'0
                constructor
                · intro h
                  cases h
                · rintro ⟨_, h2⟩
                  have hsp := h2 [] (by simp [splitOnChar])
                  exact absurd rfl hsp.1
              · rw [if_neg hr'0]
                by_cases hpos3 : pos = 3
                · rw [if_pos (by simp [hpos3])]
                  constructor
                  · intro h
                    cases h
                  · rintro ⟨h1, _⟩
                    subst hpos3
                    have hne' := splitOnChar_ne_nil '.' r'
                    simp only [List.length_cons] at h1
                    exact (hne' (List.length_eq_zero.mp (by omega))).elim
                · rw [if_neg (by simp [hpos3])]
                  have hlen' : r'.length ≤ n := by
                    simp only [List.length_append, List.length_cons] at hlen
                    omega
                  have hih := ih r' (pos + 1) hlen' (by omega)
                    (fun he => absurd he hr'0)
                  constructor
                  · intro h
                    obtain ⟨hl4, hgs⟩ := hih.mp h
                    obtain ⟨hlz, hv⟩ := (okRun_iff ds hds).mp hok
                    refine ⟨by simp only [List.length_cons]; omega, ?_⟩
                    intro g hg
                    rcases List.mem_cons.mp hg with rfl | hg'
                    · exact ⟨hds0, hds, hlz, hv⟩
                    · exact hgs g hg'
                  · rintro ⟨hl4, hgs⟩
                    apply hih.mpr
                    refine ⟨by simp only [List.length_cons] at hl4; omega, ?_⟩
                    exact fun g hg => hgs g (List.mem_cons_of_mem _ hg)
          · rw [if_neg hok]
            constructor
            · intro h
              cases h
            · rintro ⟨_, h2⟩
              have hsp := h2 ds (List.mem_cons_self _ _)
              exact absurd ((okRun_iff ds hds).mpr ⟨hsp.2.2.1, hsp.2.2.2⟩) hok
        · rw [parseIPv4Fields_digit_run ds (c :: r') 0 0 pos hds,
            parseIPv4Fields_garbage c r' hcd hcdot, ite_self]
          constructor
          · intro h
            cases h
          · rintro ⟨_, h2⟩
            have hcmem : c ∈ ds ++ c :: r' :=
              List.mem_append_right _ (List.mem_cons_self _ _)
            obtain ⟨g, hg, hcg⟩ := mem_splitOnChar_of_mem '.' (ds ++ c :: r') c hcmem hcdot
            have := (h2 g hg).2.1 c hcg
            rw [hcd] at this
            cases this

/-- `netip.parseIPv4` accepts exactly the four-canonical-octet strings. -/
theorem parseIPv4_iff (s : List Char) : parseIPv4 s = true ↔ specIPv4Text s := by
  have := parseIPv4Fields_characterization s.length s 0 le_rfl (by omega) (fun _ => rfl)
  rw [parseIPv4, specIPv4Text]
  rw [this]
  constructor
  · rintro ⟨h1, h2⟩
    exact ⟨by omega, h2⟩
  · rintro ⟨h1, h2⟩
    exact ⟨by omega, h2⟩

/-! ## From the spec predicate to the full address parsers -/

theorem firstSpecial_of_digits_dots (s : List Char)
    (h : ∀ c ∈ s, isDigitChar c = true ∨ c = '.') :
    firstSpecial s = if '.' ∈ s then some '.' else none := by
  induction s with
  | nil => rfl
  | cons c rest ih =>
    rcases h c (List.mem_cons_self _ _) with hd | rfl
    · have hcne : ¬(c = '.' ∨ c = ':' ∨ c = '%') := by
        rintro (rfl | rfl | rfl) <;> exact absurd hd (by decide)
      have hcdot : c ≠ '.' := fun he => hcne (Or.inl he)
      rw [firstSpecial, if_neg hcne, ih (fun x hx => h x (List.mem_cons_of_mem _ hx))]
      by_cases hdot : '.' ∈ rest
      · rw [if_pos hdot, if_pos (List.mem_cons_of_mem _ hdot)]
      · rw [if_neg hdot, if_neg ?_]
        intro hm
        rcases List.mem_cons.mp hm with he | hm'
        · exact hcdot he.symm
        · exact hdot hm'
    · rw [firstSpecial, if_pos (Or.inl rfl), if_pos (List.mem_cons_self _ _)]

theorem parseAddr_specIPv4 (s : List Char) (h : specIPv4Text s) :
    parseAddr s = some ⟨true, []⟩ := by
  obtain ⟨hlen, hgs⟩ := h
  have hchars : ∀ c ∈ s, isDigitChar c = true ∨ c = '.' := by
    intro c hc
    by_cases hcdot : c = '.'
    · exact Or.inr hcdot
    · obtain ⟨g, hg, hcg⟩ := mem_splitOnChar_of_mem '.' s c hc hcdot
      exact Or.inl ((hgs g hg).2.1 c hcg)
  have hdot : '.' ∈ s := by
    by_contra hnd
    have heq : splitOnChar '.' s = [s] :=
      splitOnChar_no_sep '.' s (fun c hc he => hnd (he ▸ hc))
    rw [heq] at hlen
    simp at hlen
  unfold parseAddr
  rw [firstSpecial_of_digits_dots s hchars, if_pos hdot]
  exact if_pos ((parseIPv4_iff s).mpr ⟨hlen, hgs⟩)

theorem parseIP_specIPv4 (s : List Char) (h : specIPv4Text s) : parseIP s = true := by
  unfold parseIP
  rw [parseAddr_specIPv4 s h]
  rfl

theorem specOctet_length_le (g : List Char) (h : specOctet g) : g.length ≤ 3 := by
  by_contra hgt
  push_neg at hgt
  obtain ⟨hne, hdig, hlz, hval⟩ := h
  cases g with
  | nil => simp at hgt
  | cons c cs =>
    have hc : isDigitChar c = true := hdig c (List.mem_cons_self _ _)
    have hc0 : c ≠ '0' := by
      have hh := hlz (by simp only [List.length_cons] at hgt ⊢; omega)
      intro he
      subst he
      exact hh rfl
    have h1 : 1 ≤ digitVal c := digitVal_pos c hc hc0
    have hlow := foldl_digits_lower cs (digitVal c)
    rw [digitsVal_cons] at hval
    have hcs : 3 ≤ cs.length := by
      simp only [List.length_cons] at hgt
      omega
    have hpow : 10 ^ 3 ≤ 10 ^ cs.length := Nat.pow_le_pow_right (by omega) hcs
    have hbig : 1000 ≤ digitVal c * 10 ^ cs.length := by
      calc 1000 = 1 * 10 ^ 3 := by norm_num
      _ ≤ digitVal c * 10 ^ cs.length := Nat.mul_le_mul h1 hpow
    omega

/-! ## The gateway regex -/

theorem digitGroupDot_append (g r' : List Char)
    (hg : ∀ c ∈ g, isDigitChar c = true) (h1 : 1 ≤ g.length) (h3 : g.length ≤ 3) :
    digitGroupDot (g ++ '.' :: r') = some r' := by
  have htw := takeWhile_append_not isDigitChar g ('.' :: r') hg
    (fun c hc => by injection hc with hc'; subst hc'; decide)
  simp only [digitGroupDot, takeDigitRun]
  rw [htw.1, htw.2, if_pos ⟨h1, h3⟩]
  rfl

theorem takeWhile_all_digits (g : List Char) (hg : ∀ c ∈ g, isDigitChar c = true) :
    g.takeWhile isDigitChar = g ∧ g.dropWhile isDigitChar = [] := by
  have := takeWhile_append_not isDigitChar g [] hg (fun c hc => by cases hc)
  simpa using this

theorem ipRegex_of_groups (g1 g2 g3 g4 : List Char)
    (hg1 : ∀ c ∈ g1, isDigitChar c = true) (hl1 : 1 ≤ g1.length) (hr1 : g1.length ≤ 3)
    (hg2 : ∀ c ∈ g2, isDigitChar c = true) (hl2 : 1 ≤ g2.length) (hr2 : g2.length ≤ 3)
    (hg3 : ∀ c ∈ g3, isDigitChar c = true) (hl3 : 1 ≤ g3.length) (hr3 : g3.length ≤ 3)
    (hg4 : ∀ c ∈ g4, isDigitChar c = true) (hl4 : 1 ≤ g4.length) (hr4 : g4.length ≤ 3) :
    ipRegexMatch (g1 ++ '.' :: (g2 ++ '.' :: (g3 ++ '.' :: g4))) = true := by
  unfold ipRegexMatch
  rw [digitGroupDot_append g1 _ hg1 hl1 hr1]
  simp only [digitGroupDot_append g2 _ hg2 hl2 hr2]
  simp only [digitGroupDot_append g3 _ hg3 hl3 hr3]
  simp only [takeDigitRun]
  obtain ⟨htw, hdw⟩ := takeWhile_all_digits g4 hg4
  exact decide_eq_true ⟨by rw [htw]; exact hl4, by rw [htw]; exact hr4, hdw⟩

theorem digitGroupDot_some (s r : List Char) (h : digitGroupDot s = some r) :
    ∃ g, s = g ++ '.' :: r ∧ (∀ c ∈ g, isDigitChar c = true) ∧
      1 ≤ g.length ∧ g.length ≤ 3 := by
  simp only [digitGroupDot, takeDigitRun] at h
  split at h
  · rename_i hcond
    split at h
    · rename_i rest' hdw
      injection h with hr
      subst hr
      refine ⟨s.takeWhile isDigitChar, ?_, fun c hc => List.mem_takeWhile_imp hc,
        hcond.1, hcond.2⟩
      have htd := List.takeWhile_append_dropWhile isDigitChar s
      rw [hdw] at htd
      exact htd.symm
    · cases h
  · cases h

theorem ipRegexMatch_decomp (s : List Char) (h : ipRegexMatch s = true) :
    ∃ g1 g2 g3 g4, s = g1 ++ '.' :: (g2 ++ '.' :: (g3 ++ '.' :: g4)) ∧
      (∀ c ∈ g1, isDigitChar c = true) ∧ (∀ c ∈ g2, isDigitChar c = true) ∧
      (∀ c ∈ g3, isDigitChar c = true) ∧ (∀ c ∈ g4, isDigitChar c = true) := by
  unfold ipRegexMatch at h
  split at h
  case h_1 => cases h
  rename_i s1 h1
  split at h
  case h_1 => cases h
  rename_i s2 h2
  split at h
  case h_1 => cases h
  rename_i s3 h3
  split at h
  rename_i r rest hrr
  simp only [takeDigitRun, Prod.mk.injEq] at hrr
  have hfin' := of_decide_eq_true h
  obtain ⟨hrfl, hrestfl⟩ := hrr
  subst hrfl
  subst hrestfl
  have hfin := hfin'
  obtain ⟨g1, hs, hg1, -⟩ := digitGroupDot_some s s1 h1
  obtain ⟨g2, hs1, hg2, -⟩ := digitGroupDot_some s1 s2 h2
  obtain ⟨g3, hs2, hg3, -⟩ := digitGroupDot_some s2 s3 h3
  have hs3digits : ∀ c ∈ s3, isDigitChar c = true := by
    have hdwnil : s3.dropWhile isDigitChar = [] := hfin.2.2
    have htd := List.takeWhile_append_dropWhile isDigitChar s3
    rw [hdwnil, List.append_nil] at htd
    intro c hc
    rw [← htd] at hc
    exact List.mem_takeWhile_imp hc
  subst hs2
  subst hs1
  subst hs
  exact ⟨g1, g2, g3, s3, rfl, hg1, hg2, hg3, hs3digits⟩

theorem specIPv4_decomp (s : List Char) (h : specIPv4Text s) :
    ∃ g1 g2 g3 g4, s = g1 ++ '.' :: (g2 ++ '.' :: (g3 ++ '.' :: g4)) ∧
      specOctet g1 ∧ specOctet g2 ∧ specOctet g3 ∧ specOctet g4 := by
  obtain ⟨hlen, hgs⟩ := h
  cases hsp : splitOnChar '.' s with
  | nil => exact absurd hsp (splitOnChar_ne_nil _ _)
  | cons g1 t1 =>
    obtain ⟨_, hrest1⟩ := splitOnChar_inv '.' s g1 t1 hsp
    rcases hrest1 with ⟨rfl, rfl⟩ | ⟨s1, rfl, hsp1⟩
    · rw [hsp] at hlen; simp at hlen
    · cases t1 with
      | nil => rw [hsp] at hlen; simp at hlen
      | cons g2 t2 =>
        obtain ⟨_, hrest2⟩ := splitOnChar_inv '.' s1 g2 t2 hsp1
        rcases hrest2 with ⟨rfl, rfl⟩ | ⟨s2, rfl, hsp2⟩
        · rw [hsp] at hlen; simp at hlen
        · cases t2 with
          | nil => rw [hsp] at hlen; simp at hlen
          | cons g3 t3 =>
            obtain ⟨_, hrest3⟩ := splitOnChar_inv '.' s2 g3 t3 hsp2
            rcases hrest3 with ⟨rfl, rfl⟩ | ⟨s3, rfl, hsp3⟩
            · rw [hsp] at hlen; simp at hlen
            · cases t3 with
              | nil => rw [hsp] at hlen; simp at hlen
              | cons g4 t4 =>
                obtain ⟨_, hrest4⟩ := splitOnChar_inv '.' s3 g4 t4 hsp3
                cases t4 with
                | cons g5 t5 => rw [hsp] at hlen; simp at hlen
                | nil =>
                  rcases hrest4 with ⟨-, rfl⟩ | ⟨s4, rfl, hsp4⟩
                  · refine ⟨g1, g2, g3, s3, rfl, ?_, ?_, ?_, ?_⟩
                    · exact hgs g1 (by rw [hsp]; simp)
                    · exact hgs g2 (by rw [hsp]; simp)
                    · exact hgs g3 (by rw [hsp]; simp)
                    · exact hgs s3 (by rw [hsp]; simp)
                  · exact absurd hsp4 (splitOnChar_ne_nil _ _)

/-! ## `splitFirst` and `dtoi` lemmas -/

theorem splitFirst_none (sep : Char) (s : List Char) (h : ∀ c ∈ s, c ≠ sep) :
    splitFirst sep s = none := by
  induction s with
  | nil => rfl
  | cons c rest ih =>
    have hc : ¬ (c = sep) := h c (List.mem_cons_self _ _)
    rw [splitFirst, if_neg hc, ih (fun x hx => h x (List.mem_cons_of_mem _ hx))]

theorem splitFirst_append (sep : Char) (a r : List Char) (h : ∀ c ∈ a, c ≠ sep) :
    splitFirst sep (a ++ sep :: r) = some (a, r) := by
  induction a with
  | nil => simp [splitFirst]
  | cons c a' ih =>
    have hc : ¬ (c = sep) := h c (List.mem_cons_self _ _)
    have hr := ih (fun x hx => h x (List.mem_cons_of_mem _ hx))
    rw [List.cons_append, splitFirst, if_neg hc, hr]

theorem dtoi_digits (m : List Char) : ∀ pfx : List Char,
    (∀ c ∈ pfx ++ m, isDigitChar c = true) →
    digitsVal (pfx ++ m) < 0xFFFFFF →
    pfx ++ m ≠ [] →
    dtoi m (digitsVal pfx) pfx.length = (digitsVal (pfx ++ m), (pfx ++ m).length, true) := by
  induction m with
  | nil =>
    intro pfx _ _ hne
    rw [List.append_nil] at hne ⊢
    have hl : pfx.length ≠ 0 := fun h0 => hne (List.length_eq_zero.mp h0)
    rw [dtoi, if_neg (by simpa using hl)]
  | cons c m' ih =>
    intro pfx hd hv hne
    have hc : isDigitChar c = true := hd c (by simp)
    rw [dtoi, if_pos hc]
    have hlt : digitsVal pfx * 10 + digitVal c < 0xFFFFFF := by
      have hple := digitsVal_prefix_le (pfx ++ [c]) m'
      rw [digitsVal_snoc] at hple
      rw [List.append_assoc, List.singleton_append] at hple
      omega
    rw [if_neg (by omega)]
    have hrec := ih (pfx ++ [c])
      (by rw [List.append_assoc, List.singleton_append]; exact hd)
      (by rw [List.append_assoc, List.singleton_append]; exact hv)
      (by simp)
    rw [digitsVal_snoc, List.length_append, List.append_assoc,
      List.singleton_append] at hrec
    simpa using hrec

theorem dtoi_stops_big (m : List Char) : ∀ pfx : List Char,
    digitsVal pfx < 0xFFFFFF →
    0xFFFFFF ≤ digitsVal (pfx ++ m) →
    (∀ c ∈ m, isDigitChar c = true) →
    (dtoi m (digitsVal pfx) pfx.length).2.2 = false := by
  induction m with
  | nil =>
    intro pfx h1 h2 _
    rw [List.append_nil] at h2
    omega
  | cons c m' ih =>
    intro pfx h1 h2 hd
    have hc := hd c (by simp)
    rw [dtoi, if_pos hc]
    by_cases hbig : digitsVal pfx * 10 + digitVal c ≥ 0xFFFFFF
    · rw [if_pos hbig]
    · rw [if_neg hbig]
      have hrec := ih (pfx ++ [c]) (by rw [digitsVal_snoc]; omega)
        (by rw [List.append_assoc, List.singleton_append]; exact h2)
        (fun x hx => hd x (by simp [hx]))
      rw [digitsVal_snoc, List.length_append] at hrec
      simpa using hrec

theorem dtoi_all_digits (m : List Char) : ∀ (val i n' i' : Nat),
    dtoi m val i = (n', i', true) → i' = i + m.length →
    ∀ c ∈ m, isDigitChar c = true := by
  induction m with
  | nil => intro _ _ _ _ _ _ c hc; cases hc
  | cons c m' ih =>
    intro val i n' i' h hlen x hx
    rw [dtoi] at h
    by_cases hc : isDigitChar c = true
    · rw [if_pos hc] at h
      by_cases hbig : val * 10 + digitVal c ≥ 0xFFFFFF
      · rw [if_pos hbig] at h
        simp at h
      · rw [if_neg hbig] at h
        rcases List.mem_cons.mp hx with rfl | hx'
        · exact hc
        · refine ih _ _ _ _ h ?_ x hx'
          simp only [List.length_cons] at hlen
          omega
    · rw [if_neg hc] at h
      by_cases hi : (i == 0) = true
      · rw [if_pos hi] at h
        simp at h
      · rw [if_neg hi] at h
        simp only [Prod.mk.injEq] at h
        obtain ⟨-, h2, -⟩ := h
        simp only [List.length_cons] at hlen
        exact absurd hlen (by omega)

/-! ## Claims C7 and C8 -/

/-- C8 (counterexample): `"192.168.01.1"` consists of exactly four
dot-separated all-numeric groups, each parsing as an integer in `[0, 255]`,
so the claim says the gateway check accepts it — but Go's `net.ParseIP`
rejects the leading-zero octet `01`, so `isValidIP` returns false. -/
theorem gateway_leading_zero_counterexample :
    gatewayClaimC8 "192.168.01.1" ∧ isValidIP "192.168.01.1" = false :=
  ⟨by unfold gatewayClaimC8; decide, by rfl⟩

/-- C8 (amended): the gateway check accepts exactly the strings consisting of
exactly 4 dot-separated groups where each group is the decimal representation,
without leading zeros, of an integer in `[0, 255]` — i.e. leading-zero groups
such as `01` are rejected in addition to out-of-range and malformed shapes. -/
theorem gateway_check_characterization :
    ∀ s : String, isValidIP s = true ↔ gatewayAmended s := by
  intro s
  rw [isValidIP, gatewayAmended, Bool.and_eq_true]
  constructor
  · rintro ⟨hreg, hip⟩
    obtain ⟨g1, g2, g3, g4, hs, hg1, hg2, hg3, hg4⟩ := ipRegexMatch_decomp s.data hreg
    have hchars : ∀ c ∈ s.data, isDigitChar c = true ∨ c = '.' := by
      intro c hc
      rw [hs] at hc
      rcases List.mem_append.mp hc with h | h
      · exact Or.inl (hg1 c h)
      · rcases List.mem_cons.mp h with rfl | h
        · exact Or.inr rfl
        · rcases List.mem_append.mp h with h | h
          · exact Or.inl (hg2 c h)
          · rcases List.mem_cons.mp h with rfl | h
            · exact Or.inr rfl
            · rcases List.mem_append.mp h with h | h
              · exact Or.inl (hg3 c h)
              · rcases List.mem_cons.mp h with rfl | h
                · exact Or.inr rfl
                · exact Or.inl (hg4 c h)
    have hdotmem : '.' ∈ s.data := by
      rw [hs]
      exact List.mem_append_right _ (List.mem_cons_self _ _)
    have haddr : parseAddr s.data =
        (if parseIPv4 s.data then some ⟨true, []⟩ else none : Option ParsedAddr) := by
      unfold parseAddr
      rw [firstSpecial_of_digits_dots s.data hchars, if_pos hdotmem]
      rfl
    by_cases hp4 : parseIPv4 s.data = true
    · exact (parseIPv4_iff s.data).mp hp4
    · exfalso
      unfold parseIP at hip
      rw [haddr, if_neg hp4] at hip
      have hfalse : (false : Bool) = true := hip
      cases hfalse
  · intro hspec
    refine ⟨?_, parseIP_specIPv4 s.data hspec⟩
    obtain ⟨g1, g2, g3, g4, hs, ho1, ho2, ho3, ho4⟩ := specIPv4_decomp s.data hspec
    rw [hs]
    exact ipRegex_of_groups g1 g2 g3 g4
      ho1.2.1 (List.length_pos.mpr ho1.1) (specOctet_length_le g1 ho1)
      ho2.2.1 (List.length_pos.mpr ho2.1) (specOctet_length_le g2 ho2)
      ho3.2.1 (List.length_pos.mpr ho3.1) (specOctet_length_le g3 ho3)
      ho4.2.1 (List.length_pos.mpr ho4.1) (specOctet_length_le g4 ho4)

/-- C7 (counterexample): Go's `net.ParseCIDR` also parses IPv6 CIDR notation,
so `isValidCIDR "::1/128"` is true although `"::1/128"` is not an IPv4
dotted-decimal address followed by a prefix length in `[0, 32]` — the claim's
"every non-IPv4 address is rejected" is false on the code. -/
theorem subnet_ipv6_counterexample :
    isValidCIDR "::1/128" = true ∧ ¬ subnetClaimC7 "::1/128" := by
  refine ⟨rfl, ?_⟩
  intro h
  have h' : (match splitFirst '/' "::1/128".data with
    | none => False
    | some (addr, mask) =>
      specIPv4Text addr ∧ mask ≠ [] ∧ (∀ c ∈ mask, isDigitChar c = true) ∧
        digitsVal mask ≤ 32) := h
  have hsp : splitFirst '/' "::1/128".data = some ([':', ':', '1'], ['1', '2', '8']) := rfl
  rw [hsp] at h'
  exact absurd h'.1.1 (by decide)

/-- C7 (amended): the subnet check accepts every string that is an IPv4
dotted-decimal address followed by `/` and a numeric prefix of value at most
32; it rejects strings without a slash, and rejects IPv4-addressed strings
whose prefix part is empty, non-numeric, or of value above 32; but not every
other string is rejected: IPv6 CIDR strings such as `::1/128` are also
accepted. -/
theorem subnet_check_characterization :
    (∀ s : String, subnetClaimC7 s → isValidCIDR s = true) ∧
    (∀ s : String, (∀ c ∈ s.data, c ≠ '/') → isValidCIDR s = false) ∧
    (∀ addr mask : List Char, specIPv4Text addr →
      ((∃ c ∈ mask, isDigitChar c = false) ∨ mask = [] ∨ 32 < digitsVal mask) →
      isValidCIDR ⟨addr ++ '/' :: mask⟩ = false) ∧
    isValidCIDR "::1/128" = true := by
  refine ⟨?_, ?_, ?_, rfl⟩
  · intro s h
    have h' : (match splitFirst '/' s.data with
      | none => False
      | some (addr, mask) =>
        specIPv4Text addr ∧ mask ≠ [] ∧ (∀ c ∈ mask, isDigitChar c = true) ∧
          digitsVal mask ≤ 32) := h
    cases hsp : splitFirst '/' s.data with
    | none => rw [hsp] at h'; exact h'.elim
    | some pr =>
      cases pr with
      | mk addr mask =>
        rw [hsp] at h'
        obtain ⟨hspec, hne, hdig, hval⟩ := h'
        have hdt : dtoi mask 0 0 = (digitsVal mask, mask.length, true) := by
          have := dtoi_digits mask [] (by simpa using hdig)
            (by simp only [List.nil_append]; omega) (by simpa using hne)
          simpa [show digitsVal ([] : List Char) = 0 from rfl] using this
        unfold isValidCIDR parseCIDR
        simp only [hsp, parseAddr_specIPv4 addr hspec, hdt]
        simp [bitLen, hval]
  · intro s h
    unfold isValidCIDR parseCIDR
    rw [splitFirst_none '/' s.data h]
  · intro addr mask hspec hbad
    have haddrne : ∀ c ∈ addr, c ≠ '/' := by
      intro c hc
      by_cases hcdot : c = '.'
      · subst hcdot; decide
      · obtain ⟨g, hg, hcg⟩ := mem_splitOnChar_of_mem '.' addr c hc hcdot
        exact digit_ne c '/' ((hspec.2 g hg).2.1 c hcg) (by decide)
    show parseCIDR (addr ++ '/' :: mask) = false
    rcases hdt : dtoi mask 0 0 with ⟨n, i, ok⟩
    unfold parseCIDR
    simp only [splitFirst_append '/' addr mask haddrne, parseAddr_specIPv4 addr hspec, hdt]
    cases hB : (ok && (i == mask.length) && decide (n ≤ bitLen ⟨true, []⟩)) with
    | false =>
      simp
    | true =>
      exfalso
      rw [Bool.and_eq_true, Bool.and_eq_true] at hB
      obtain ⟨⟨hok, hlen⟩, hle⟩ := hB
      rw [hok, beq_iff_eq.mp hlen] at hdt
      have hdigits := dtoi_all_digits mask 0 0 n mask.length hdt (by simp)
      have hle' : n ≤ 32 := by simpa [bitLen] using of_decide_eq_true hle
      rcases hbad with ⟨c, hcm, hcd⟩ | hmnil | hbig
      · rw [hdigits c hcm] at hcd
        cases hcd
      · subst hmnil
        simp [dtoi] at hdt
      · by_cases hsmall : digitsVal mask < 0xFFFFFF
        · have hdd := dtoi_digits mask [] (by simpa using hdigits)
            (by simpa using hsmall)
            (by intro h0; rw [List.nil_append] at h0; subst h0; simp [digitsVal] at hbig)
          rw [show digitsVal ([] : List Char) = 0 from rfl] at hdd
          simp only [List.nil_append, List.length_nil] at hdd
          rw [hdd] at hdt
          simp only [Prod.mk.injEq] at hdt
          omega
        · push_neg at hsmall
          have hstop := dtoi_stops_big mask []
            (by simp [digitsVal]) (by simpa [digitsVal] using hsmall) hdigits
          rw [show digitsVal ([] : List Char) = 0 from rfl] at hstop
          simp only [List.length_nil] at hstop
          rw [hdt] at hstop
          cases hstop

/-- C7 witness: the accepted-IPv4 branch of the amended subnet claim
instantiated at `192.168.1.0/24`. -/
theorem subnet_check_characterization_witness :
    subnetClaimC7 "192.168.1.0/24" ∧ isValidCIDR "192.168.1.0/24" = true := by
  have h : subnetClaimC7 "192.168.1.0/24" := by
    unfold subnetClaimC7
    exact ⟨by decide, by decide, by decide, by decide⟩
  exact ⟨h, subnet_check_characterization.1 "192.168.1.0/24" h⟩

end Smit
